import Mathlib

/-!
Verification of the vibeui terminal-UI core: a shallow embedding of the
rendering buffer, the layout calculators, the container/event machinery and
the application tick loop, with theorems settling the specification claims.

Machine integers (`u16` in the source) are modelled as `Nat` together with
checked operations returning `Option Nat`: `none` corresponds to the panic a
Rust debug build raises on arithmetic overflow/underflow or division by zero.
`usize → u16` casts (`as u16`) wrap, and are modelled by `% 65536`.
Rust's `saturating_sub` on unsigned integers coincides with `Nat`
subtraction.
-/

def MAX16 : Nat := 65535

/-- Checked `u16` addition: `none` models a debug-build overflow panic. -/
def add16 (a b : Nat) : Option Nat :=
  if a + b ≤ MAX16 then some (a + b) else none

/-- Checked `u16` subtraction: `none` models a debug-build underflow panic. -/
def sub16 (a b : Nat) : Option Nat :=
  if b ≤ a then some (a - b) else none

/-- Checked `u16` multiplication: `none` models a debug-build overflow panic. -/
def mul16 (a b : Nat) : Option Nat :=
  if a * b ≤ MAX16 then some (a * b) else none

/-- Checked `u16` division: `none` models the division-by-zero panic. -/
def div16 (a b : Nat) : Option Nat :=
  if b = 0 then none else some (a / b)

/-- Checked `u16` remainder: `none` models the remainder-by-zero panic. -/
def mod16 (a b : Nat) : Option Nat :=
  if b = 0 then none else some (a % b)

/-- A wrapping `usize → u16` cast (`as u16` in the source). -/
def cast16 (a : Nat) : Nat := a % 65536

/-- Checked `u16` sum of a list (`Iterator::sum::<u16>()` in the source,
which panics on overflow in a debug build). -/
def sum16 (l : List Nat) : Option Nat := l.foldlM add16 0

/-- Model of `l[i] = v` on a vector: in-bounds assignment, `none` models the
out-of-bounds panic of an indexed store. -/
def setChecked {α : Type} (l : List α) (i : Nat) (v : α) : Option (List α) :=
  if i < l.length then some (l.set i v) else none

/-- The flat index `y * width + x` computed in `u16` arithmetic, as the
source does inside `get_cell`, `set_cell` and `resize`. -/
def idx16 (y width x : Nat) : Option Nat := do
  let p ← mul16 y width
  add16 p x

/-! ## Style and colour model (src/style/color.rs, src/style/style.rs) -/

inductive Color
  | Black | Red | Green | Yellow | Blue | Magenta | Cyan | White
  | BrightBlack | BrightRed | BrightGreen | BrightYellow
  | BrightBlue | BrightMagenta | BrightCyan | BrightWhite
  | Rgb (r g b : Nat)
  | AnsiValue (v : Nat)
deriving DecidableEq

structure Style where
  foreground : Option Color := none
  background : Option Color := none
  bold : Bool := false
  italic : Bool := false
  underline : Bool := false
  dim : Bool := false
  blink : Bool := false
  reverse : Bool := false
  hidden : Bool := false
  strikethrough : Bool := false
deriving DecidableEq

/-- Model of `Style::default()`. -/
def Style.default : Style := {}

/-! ## Flex layout calculator (src/components/layout.rs, `mod flex`) -/

namespace flex

inductive Direction
  | Row
  | Column
deriving DecidableEq

inductive Justify
  | Start
  | Center
  | End
  | SpaceBetween
  | SpaceAround
  | SpaceEvenly
deriving DecidableEq

inductive Align
  | Start
  | Center
  | End
  | Stretch
deriving DecidableEq

/-- The initial main-axis offset chosen by `calculate_layout` for each
justification mode (divisions are by nonzero constants, hence total). -/
def justifyStart (j : Justify) (available gaps : Nat) : Nat :=
  match j with
  | .Start => 0
  | .Center => available / 2
  | .End => available
  | .SpaceBetween => 0
  | .SpaceAround => gaps / 2
  | .SpaceEvenly => gaps

/-- The cross-axis offset of one item: `match align` block of the source;
`container_extent - item_extent` is an unchecked `u16` subtraction. -/
def crossOffset (a : Align) (container_extent item_extent : Nat) : Option Nat :=
  match a with
  | .Start => some 0
  | .Center => do
      let d ← sub16 container_extent item_extent
      pure (d / 2)
  | .End => sub16 container_extent item_extent
  | .Stretch => some 0

/-- The amount added to the main-axis cursor after item `i` (on top of the
item's own extent): the `match justify` block inside the loop. -/
def stepAfter (j : Justify) (i n available gaps : Nat) : Option Nat :=
  match j with
  | .SpaceBetween =>
      if i < n - 1 then div16 available (cast16 (n - 1)) else some 0
  | _ => some gaps

/-- The `Direction::Row` loop of `calculate_layout`: `i` is the loop index,
`cx` the `current_x` cursor. -/
def rowLoop (container_height : Nat) (justify : Justify) (align : Align)
    (n available gaps : Nat) :
    Nat → Nat → List (Nat × Nat) → Option (List (Nat × Nat × Nat × Nat))
  | _, _, [] => some []
  | i, cx, (item_width, item_height) :: rest => do
      let y ← crossOffset align container_height item_height
      let height := if align = .Stretch then container_height else item_height
      let step ← stepAfter justify i n available gaps
      let s ← add16 item_width step
      let cx2 ← add16 cx s
      let tail ← rowLoop container_height justify align n available gaps (i + 1) cx2 rest
      some ((cx, y, item_width, height) :: tail)

/-- The `Direction::Column` loop of `calculate_layout`: `cy` is the
`current_y` cursor. -/
def colLoop (container_width : Nat) (justify : Justify) (align : Align)
    (n available gaps : Nat) :
    Nat → Nat → List (Nat × Nat) → Option (List (Nat × Nat × Nat × Nat))
  | _, _, [] => some []
  | i, cy, (item_width, item_height) :: rest => do
      let x ← crossOffset align container_width item_width
      let width := if align = .Stretch then container_width else item_width
      let step ← stepAfter justify i n available gaps
      let s ← add16 item_height step
      let cy2 ← add16 cy s
      let tail ← colLoop container_width justify align n available gaps (i + 1) cy2 rest
      some ((x, cy, width, item_height) :: tail)

/-- Model of `flex::calculate_layout`: positions `(x, y, width, height)` for each
`(width, height)` item, or `none` when the source would panic. -/
def calculate_layout (container_width container_height : Nat)
    (direction : Direction) (justify : Justify) (align : Align)
    (items : List (Nat × Nat)) (gaps : Nat) :
    Option (List (Nat × Nat × Nat × Nat)) :=
  if items.isEmpty then some [] else
  match direction with
  | .Row => do
      let total_item_width ← sum16 (items.map Prod.fst)
      let total_gap_width ← mul16 gaps (cast16 (items.length - 1))
      let t ← add16 total_item_width total_gap_width
      let available_width := container_width - t
      rowLoop container_height justify align items.length available_width gaps 0
        (justifyStart justify available_width gaps) items
  | .Column => do
      let total_item_height ← sum16 (items.map Prod.snd)
      let total_gap_height ← mul16 gaps (cast16 (items.length - 1))
      let t ← add16 total_item_height total_gap_height
      let available_height := container_height - t
      colLoop container_width justify align items.length available_height gaps 0
        (justifyStart justify available_height gaps) items

end flex

/-! ## Grid cell calculator (src/components/layout.rs, `mod grid`) -/

namespace grid

structure GridConfig where
  columns : Nat
  rows : Nat
  column_gap : Nat
  row_gap : Nat
deriving DecidableEq

/-- Model of `GridConfig::calculate_cells`: the `columns × rows` cells pushed row-major,
or `none` when the source would panic (`columns - 1` / `rows - 1` underflow,
gap subtraction underflow, division by zero columns/rows, index overflow). -/
def GridConfig.calculate_cells (g : GridConfig)
    (container_width container_height : Nat) :
    Option (List (Nat × Nat × Nat × Nat)) := do
  let cm1 ← sub16 g.columns 1
  let total_gap_width ← mul16 g.column_gap cm1
  let rm1 ← sub16 g.rows 1
  let total_gap_height ← mul16 g.row_gap rm1
  let wa ← sub16 container_width total_gap_width
  let cell_width ← div16 wa g.columns
  let ha ← sub16 container_height total_gap_height
  let cell_height ← div16 ha g.rows
  let rowsList ← (List.range g.rows).mapM (fun row =>
    (List.range g.columns).mapM (fun col => do
      let sx ← add16 cell_width g.column_gap
      let x ← mul16 col sx
      let sy ← add16 cell_height g.row_gap
      let y ← mul16 row sy
      pure (x, y, cell_width, cell_height)))
  pure rowsList.flatten

end grid

/-! ## Event model (src/events/event.rs, src/events/key.rs) -/

structure Modifiers where
  shift : Bool := false
  ctrl : Bool := false
  alt : Bool := false
  meta : Bool := false
deriving DecidableEq

inductive MouseButton
  | Left | Right | Middle | Button4 | Button5
deriving DecidableEq

inductive ScrollDirection
  | Up | Down | Left | Right
deriving DecidableEq

inductive Key
  | Char (c : Char)
  | F (n : Nat)
  | Backspace | Enter | Leftward | Rightward | Upward | Downward
  | Home | EndKey | PageUp | PageDown | Tab | BackTab | Delete
  | Insert | Esc | CapsLock | ScrollLock | NumLock | PrintScreen
  | Pause | Menu | KeypadBegin
deriving DecidableEq

inductive Event
  | KeyPress (key : Key) (modifiers : Modifiers)
  | KeyRelease (key : Key) (modifiers : Modifiers)
  | MousePress (button : MouseButton) (x y : Nat) (modifiers : Modifiers)
  | MouseRelease (button : MouseButton) (x y : Nat) (modifiers : Modifiers)
  | MouseClick (button : MouseButton) (x y : Nat) (modifiers : Modifiers)
  | MouseMove (x y : Nat) (modifiers : Modifiers)
  | MouseScroll (direction : ScrollDirection) (delta : Int) (x y : Nat)
      (modifiers : Modifiers)
  | Resize (width height : Nat)
  | FocusGained
  | FocusLost
  | Quit
  | Timer (id : String)
  | Custom (event_type : String) (data : String)
deriving DecidableEq

/-! ## Container (src/components/container.rs)

`Container.children` is a `std::collections::HashMap<String, Box<dyn
Component>>`.  A `HashMap` iterates its entries in an unspecified order that
is unrelated to insertion order; the model therefore carries the children as
the list of entries **in the map's iteration order**, an arbitrary
permutation of the inserted pairs. -/

inductive LayoutType
  | Vertical
  | Horizontal
  | Absolute
  | Grid
deriving DecidableEq

/-- The mutable geometry a child stores through
`set_position`/`set_size`/`bounds` (`BaseComponent` fields). -/
structure ChildBox where
  x : Nat
  y : Nat
  width : Nat
  height : Nat
deriving DecidableEq

/-- Model of `HashMap::insert` seen on the entry list in iteration order: an existing
key keeps its slot and receives the new value; a fresh key lands at an
unspecified slot (modelled as the end of the list). -/
def insertHM {C : Type} (m : List (String × C)) (k : String) (v : C) :
    List (String × C) :=
  if (m.lookup k).isSome then
    m.map (fun p => if p.1 = k then (k, v) else p)
  else m ++ [(k, v)]

namespace Container

/-- Model of `Container::add_child` (`self.children.insert(name, component)`). -/
def add_child {C : Type} (children : List (String × C)) (name : String)
    (component : C) : List (String × C) :=
  insertHM children name component

/-- Model of `Container::get_child` (`self.children.get(name)`). -/
def get_child {C : Type} (children : List (String × C)) (name : String) :
    Option C :=
  children.lookup name

/-- The `LayoutType::Vertical` (and `Grid` fallback) loop of
`arrange_children`: every child gets the full content width, an equal slice
of the content height, and `current_y += child_height` is a checked add. -/
def vLoop {C : Type} (content_x content_width child_height : Nat) :
    Nat → List (String × C) → Option (List (String × ChildBox))
  | _, [] => some []
  | current_y, (name, _) :: rest => do
      let next_y ← add16 current_y child_height
      let tail ← vLoop content_x content_width child_height next_y rest
      some ((name, ChildBox.mk content_x current_y content_width child_height) :: tail)

/-- The `LayoutType::Horizontal` loop of `arrange_children`. -/
def hLoop {C : Type} (content_y content_height child_width : Nat) :
    Nat → List (String × C) → Option (List (String × ChildBox))
  | _, [] => some []
  | current_x, (name, _) :: rest => do
      let next_x ← add16 current_x child_width
      let tail ← hLoop content_y content_height child_width next_x rest
      some ((name, ChildBox.mk current_x content_y child_width content_height) :: tail)

/-- Model of `Container::arrange_children` on a container with bounds
`(x, y, width, height)`, `padding = (top, right, bottom, left)` and the given
layout: returns the children with their new boxes (in map iteration order),
or `none` when the source would panic.  The two `saturating_sub` calls keep
the content extent at zero, but the padding sums inside them and the
`x + padding` offsets are ordinary checked `u16` additions. -/
def arrange_children (x y width height : Nat)
    (padding : Nat × Nat × Nat × Nat) (layout : LayoutType)
    (children : List (String × ChildBox)) :
    Option (List (String × ChildBox)) := do
  let (padding_top, padding_right, padding_bottom, padding_left) := padding
  let content_x ← add16 x padding_left
  let content_y ← add16 y padding_top
  let ph ← add16 padding_left padding_right
  let content_width := width - ph
  let pv ← add16 padding_top padding_bottom
  let content_height := height - pv
  match layout with
  | .Vertical => do
      let child_height ← div16 content_height (cast16 (children.length.max 1))
      vLoop content_x content_width child_height content_y children
  | .Horizontal => do
      let child_width ← div16 content_width (cast16 (children.length.max 1))
      hLoop content_y content_height child_width content_x children
  | .Absolute =>
      children.mapM (fun p => do
        let new_x ← add16 content_x (p.2.x.min content_width)
        let new_y ← add16 content_y (p.2.y.min content_height)
        pure (p.1, { p.2 with x := new_x, y := new_y }))
  | .Grid => do
      let child_height ← div16 content_height (cast16 (children.length.max 1))
      vLoop content_x content_width child_height content_y children

/-- The `handle_event` loop over `self.children.values_mut().rev()`: the
argument list is already in **dispatch order** (reverse of map iteration
order); the first child whose handler returns `true` stops the loop, later
children are not touched. -/
def dispatchRev {C : Type} (handle : C → Event → Bool × C) :
    List (String × C) → Event → Bool × List (String × C)
  | [], _ => (false, [])
  | (n, c) :: rest, e =>
      let r := handle c e
      if r.1 then (true, (n, r.2) :: rest)
      else
        let tail := dispatchRev handle rest e
        (tail.1, (n, r.2) :: tail.2)

/-- Model of `Container::handle_event`: children are visited in reverse of the map's
iteration order and the first `true` short-circuits; the returned list is
back in map iteration order. -/
def handle_event {C : Type} (handle : C → Event → Bool × C)
    (children : List (String × C)) (e : Event) :
    Bool × List (String × C) :=
  let r := dispatchRev handle children.reverse e
  (r.1, r.2.reverse)

end Container

/-! ## Button (src/components/button.rs), used as a concrete hit-testable
child: a click inside its bounds activates it and is reported handled. -/

structure Button where
  x : Nat
  y : Nat
  width : Nat
  height : Nat
  is_active : Bool := false
  is_hovered : Bool := false
deriving DecidableEq

/-- Model of `Button::handle_event` (the additions `bx + bw`, `by + bh` cannot
overflow at the bounds used in this development). -/
def Button.handle_event (b : Button) (e : Event) : Bool × Button :=
  match e with
  | .MouseClick _ px py _ =>
      if b.x ≤ px ∧ px < b.x + b.width ∧ b.y ≤ py ∧ py < b.y + b.height then
        (true, { b with is_active := true })
      else (false, b)
  | .MouseMove px py _ =>
      let hovered := decide (b.x ≤ px ∧ px < b.x + b.width ∧ b.y ≤ py ∧ py < b.y + b.height)
      if b.is_hovered ≠ hovered then (true, { b with is_hovered := hovered })
      else (false, { b with is_hovered := hovered })
  | .MouseRelease _ _ _ _ =>
      if b.is_active then (true, { b with is_active := false }) else (false, b)
  | _ => (false, b)

/-! ## A probe component

The `Component` trait is an open interface: the application and containers
dispatch through `Box<dyn Component>`.  To observe *delivery* of events, the
claims about broadcasting are stated over a minimal instrumented
implementation of that interface: it counts how often `handle_event` is
invoked and returns a fixed handled flag. -/

structure Probe where
  hits : Nat := 0
  handledFlag : Bool := false
deriving DecidableEq

def Probe.handle (p : Probe) (_e : Event) : Bool × Probe :=
  (p.handledFlag, { p with hits := p.hits + 1 })

/-! ## Application loop (src/app/app.rs) -/

/-- One observable step of the tick body of `App::run`. -/
inductive Phase
  | clear
  | render (name : String)
  | present
  | update (name : String)
deriving DecidableEq

namespace App

/-- Model of `App::render`: `renderer.clear()`, then `render_component` for every
component (in map iteration order), then `renderer.present()`. -/
def render_trace (names : List String) : List Phase :=
  Phase.clear :: (names.map Phase.render ++ [Phase.present])

/-- Model of `App::update`: `component.update()` for every component; containers run
`arrange_children` (layout) at the start of their `update`. -/
def update_trace (names : List String) : List Phase :=
  names.map Phase.update

/-- One iteration of the `while self.running` loop of `App::run`, after the
event drain: `self.render()?` first, `self.update()?` second. -/
def tick_trace (names : List String) : List Phase :=
  render_trace names ++ update_trace names

/-- The application state seen by `App::handle_event`, with probe
components. -/
structure State where
  components : List (String × Probe)
  running : Bool
deriving DecidableEq

/-- Model of `App::handle_event`: `Quit` only stops the loop; every other event is
passed to all components, ignoring their handled result. -/
def handle_event (a : State) (e : Event) : State :=
  match e with
  | .Quit => { a with running := false }
  | _ => { a with
      components := a.components.map (fun p => (p.1, (Probe.handle p.2 e).2)) }

end App

/-! ## Render buffer (src/render/buffer.rs) and presentation
(src/render/renderer.rs) -/

structure BufferCell where
  ch : Char
  style : Style
  dirty : Bool
deriving DecidableEq

/-- Model of `BufferCell::default()`: a space with the default style, not dirty. -/
def BufferCell.default : BufferCell := ⟨' ', Style.default, false⟩

structure RenderBuffer where
  width : Nat
  height : Nat
  cells : List BufferCell
  prev_cells : List BufferCell
deriving DecidableEq

namespace RenderBuffer

/-- Model of `RenderBuffer::new`. -/
def new (width height : Nat) : RenderBuffer :=
  ⟨width, height, List.replicate (width * height) BufferCell.default,
    List.replicate (width * height) BufferCell.default⟩

/-- Model of `RenderBuffer::get_cell`; the flat index is computed in `u16`
arithmetic, whose overflow (a panic in the source) is folded into `none`. -/
def get_cell (b : RenderBuffer) (x y : Nat) : Option BufferCell :=
  if x < b.width ∧ y < b.height then do
    let i ← idx16 y b.width x
    b.cells.get? i
  else none

/-- Model of `RenderBuffer::set_cell` / `draw_char`: out-of-range writes are silently
ignored; in range, the cell is replaced and `dirty` records whether it
differs from the pre-existing cell.  `none` models an index-arithmetic
panic. -/
def set_cell (b : RenderBuffer) (x y : Nat) (ch : Char) (style : Style) :
    Option RenderBuffer :=
  if x < b.width ∧ y < b.height then do
    let i ← idx16 y b.width x
    let old ← b.cells.get? i
    let dirty := old.ch != ch || old.style != style
    some { b with cells := b.cells.set i ⟨ch, style, dirty⟩ }
  else some b

/-- The body of the copy loop of `RenderBuffer::resize` for one `(y, x)`
pair: both grids are copied at the translated flat index. -/
def copyCell (old_width new_width : Nat) (src srcPrev : List BufferCell)
    (acc : List BufferCell × List BufferCell) (y x : Nat) :
    Option (List BufferCell × List BufferCell) := do
  let old_index ← idx16 y old_width x
  let new_index ← idx16 y new_width x
  let v ← src.get? old_index
  let p ← srcPrev.get? old_index
  let nc ← setChecked acc.1 new_index v
  let np ← setChecked acc.2 new_index p
  pure (nc, np)

/-- The nested `for y in 0..min_height { for x in 0..min_width }` copy loop
of `resize`. -/
def copyLoop (old_width new_width : Nat) (src srcPrev : List BufferCell)
    (min_width min_height : Nat)
    (init : List BufferCell × List BufferCell) :
    Option (List BufferCell × List BufferCell) :=
  (List.range min_height).foldlM
    (fun acc y =>
      (List.range min_width).foldlM
        (fun acc2 x => copyCell old_width new_width src srcPrev acc2 y x) acc)
    init

/-- Model of `RenderBuffer::resize`: no-op at the current size, otherwise both grids
are reallocated and the overlapping region is copied positionally. -/
def resize (b : RenderBuffer) (width height : Nat) : Option RenderBuffer :=
  if width = b.width ∧ height = b.height then some b
  else do
    let new_size := width * height
    let min_width := b.width.min width
    let min_height := b.height.min height
    let r ← copyLoop b.width width b.cells b.prev_cells min_width min_height
      (List.replicate new_size BufferCell.default,
       List.replicate new_size BufferCell.default)
    pure ⟨width, height, r.1, r.2⟩

end RenderBuffer

/-- A terminal attribute set by `SetAttribute` (crossterm). -/
inductive Attr
  | Bold | Italic | Underlined | Dim | SlowBlink | Reverse | Hidden
  | CrossedOut
deriving DecidableEq

/-- One queued terminal write emitted during presentation. -/
inductive TermWrite
  | moveTo (x y : Nat)
  | setForeground (c : Color)
  | setBackground (c : Color)
  | setAttr (a : Attr)
  | print (ch : Char)
  | reset
deriving DecidableEq

/-- Model of `Renderer::style_to_commands`: the escape commands for a style (empty
for the default style). -/
def style_to_commands (s : Style) : List TermWrite :=
  (match s.foreground with
   | some fg => [TermWrite.setForeground fg]
   | none => []) ++
  (match s.background with
   | some bg => [TermWrite.setBackground bg]
   | none => []) ++
  (if s.bold then [TermWrite.setAttr .Bold] else []) ++
  (if s.italic then [TermWrite.setAttr .Italic] else []) ++
  (if s.underline then [TermWrite.setAttr .Underlined] else []) ++
  (if s.dim then [TermWrite.setAttr .Dim] else []) ++
  (if s.blink then [TermWrite.setAttr .SlowBlink] else []) ++
  (if s.reverse then [TermWrite.setAttr .Reverse] else []) ++
  (if s.hidden then [TermWrite.setAttr .Hidden] else []) ++
  (if s.strikethrough then [TermWrite.setAttr .CrossedOut] else [])

namespace RenderBuffer

/-- The diff scan of `render_to_terminal` over the post-swap `cells`
(enumerated by `index`), diffing against `prev_cells`, tracking the cursor
`(x, y)` and the last emitted style; returns the queued writes and the final
`current_style`.  `cell_x`/`cell_y` come from `u16` `%` and `/` on the cast
index. -/
def renderLoop (width : Nat) (prev : List BufferCell) :
    List BufferCell → Nat → Nat → Nat → Option Style →
    Option (List TermWrite × Option Style)
  | [], _, _, _, current_style => some ([], current_style)
  | cell :: rest, index, x, y, current_style => do
      let pcell ← prev.get? index
      if cell.ch != pcell.ch || cell.style != pcell.style then do
        let ci := cast16 index
        let cell_x ← mod16 ci width
        let cell_y ← div16 ci width
        let moves := if cell_x ≠ x ∨ cell_y ≠ y then [TermWrite.moveTo cell_x cell_y] else []
        let styles := if some cell.style ≠ current_style then style_to_commands cell.style else []
        let cs2 := if some cell.style ≠ current_style then some cell.style else current_style
        let x2 := cell_x + 1
        let xy3 := if width ≤ x2 then (0, cell_y + 1) else (x2, cell_y)
        let r ← renderLoop width prev rest (index + 1) xy3.1 xy3.2 cs2
        pure (moves ++ styles ++ [TermWrite.print cell.ch] ++ r.1, r.2)
      else
        renderLoop width prev rest (index + 1) x y current_style

/-- Model of `RenderBuffer::render_to_terminal`: swaps `cells ↔ prev_cells` **first**,
then scans for differing cells, emitting cursor moves, coalesced style
changes and characters, with a final `ResetColor` if any style was set.
Returns the queued writes and the post-swap buffer. -/
def render_to_terminal (b : RenderBuffer) :
    Option (List TermWrite × RenderBuffer) := do
  let swapped : RenderBuffer :=
    { b with cells := b.prev_cells, prev_cells := b.cells }
  let r ← renderLoop swapped.width swapped.prev_cells swapped.cells 0 0 0 none
  let writes := if r.2.isSome then r.1 ++ [TermWrite.reset] else r.1
  pure (writes, swapped)

end RenderBuffer

/-- Model of `Renderer::present`: an unconditional `MoveTo(0, 0)`, then
`render_to_terminal`. -/
def Renderer.present (b : RenderBuffer) :
    Option (List TermWrite × RenderBuffer) := do
  let r ← b.render_to_terminal
  pure (TermWrite.moveTo 0 0 :: r.1, r.2)

/-- Shift a flex position tuple by `s` along the main axis of direction
`d` (used to compare `SpaceAround` and `SpaceEvenly` runs). -/
def flex.mainShift (d : flex.Direction) (s : Nat)
    (p : Nat × Nat × Nat × Nat) : Nat × Nat × Nat × Nat :=
  match d with
  | .Row => (p.1 + s, p.2.1, p.2.2.1, p.2.2.2)
  | .Column => (p.1, p.2.1 + s, p.2.2.1, p.2.2.2)

/-! # Claim theorems -/

/-- Claim C1: `render_to_terminal` swaps the grids **before** the diff scan,
so after a `present()` the current and shadow grids still differ wherever
the frame changed; with no intervening draws the second `present()` finds
the same differing cell again and re-emits writes (and the first `present()`
prints the pre-swap character `' '` instead of the drawn `'X'`).  This
refutes the claim that the second call emits zero writes. -/
theorem C1_present_swap_bug :
    ∃ b1 w1 b2 w2 b3,
      (RenderBuffer.new 1 1).set_cell 0 0 'X' Style.default = some b1 ∧
      Renderer.present b1 = some (w1, b2) ∧
      w1 = [TermWrite.moveTo 0 0, TermWrite.print ' ', TermWrite.reset] ∧
      b2.cells ≠ b2.prev_cells ∧
      Renderer.present b2 = some (w2, b3) ∧
      w2 = [TermWrite.moveTo 0 0, TermWrite.print 'X', TermWrite.reset] ∧
      w2 ≠ [] := by
  refine ⟨_, _, _, _, _, rfl, rfl, by decide, by decide, rfl, by decide, by decide⟩

/-- Claim C8: on items `[(10,5),(15,5),(10,5)]` in a 50×10 row with gap 2,
justify `SpaceBetween`, align `Center`, the code places the middle item at
x = 15 and the last at x = 35 — not (17, 40) as the claim and the
repository's own `test_flex_layout` assert: the `SpaceBetween` step adds
`available/(n-1)` (with the gap already subtracted from `available`) but
never re-adds the gap itself. -/
theorem C8_flex_spacebetween_eval :
    flex.calculate_layout 50 10 .Row .SpaceBetween .Center
        [(10, 5), (15, 5), (10, 5)] 2 =
      some [(0, 2, 10, 5), (15, 2, 15, 5), (35, 2, 10, 5)] ∧
    some [(0, 2, 10, 5), (15, 2, 15, 5), (35, 2, 10, 5)] ≠
      some [(0, 2, 10, 5), (17, 2, 15, 5), (40, 2, 10, 5)] := by
  exact ⟨by decide, by decide⟩

/-- Claim C2 (counterexample): the layout calculators are *not* total on all
inputs: zero grid columns underflows `columns - 1`; a flex item taller than
the container underflows `container_height - item_height` under align
`Center`; a padding sum overflowing `u16` panics inside
`arrange_children`. -/
theorem C2_layout_not_total :
    (grid.GridConfig.mk 0 1 0 0).calculate_cells 10 10 = none ∧
    flex.calculate_layout 10 5 .Row .Start .Center [(3, 8)] 0 = none ∧
    Container.arrange_children 0 0 10 10 (40000, 40000, 40000, 40000)
      .Vertical ([] : List (String × ChildBox)) = none := by
  exact ⟨by decide, by decide, by decide⟩

/-- Claim C5 (counterexample): a character drawn at (2,2) of a 5×5 buffer is
**not** dropped by a resize down to 3×3 — (2,2) lies inside the 3×3 overlap
(0-based indices 0..2) — while it is preserved at 10×10 and dropped at
2×2. -/
theorem C5_shrink_counterexample :
    ∃ b b10 b3 b2s,
      (RenderBuffer.new 5 5).set_cell 2 2 'X' Style.default = some b ∧
      b.resize 10 10 = some b10 ∧
      b10.get_cell 2 2 = some ⟨'X', Style.default, true⟩ ∧
      b.resize 3 3 = some b3 ∧
      b3.get_cell 2 2 = some ⟨'X', Style.default, true⟩ ∧
      b.resize 2 2 = some b2s ∧
      b2s.get_cell 2 2 = none := by
  refine ⟨_, _, _, _, rfl, rfl, by decide, rfl, by decide, rfl, by decide⟩

/-- Claim C6 (counterexample): with gap 2, `SpaceAround` starts the run at
`gaps/2 = 1` while `SpaceEvenly` starts it at `gaps = 2`, so the two modes
do not return the same positions. -/
theorem C6_around_evenly_differ :
    flex.calculate_layout 10 10 .Row .SpaceAround .Start [(1, 1)] 2 =
      some [(1, 0, 1, 1)] ∧
    flex.calculate_layout 10 10 .Row .SpaceEvenly .Start [(1, 1)] 2 =
      some [(2, 0, 1, 1)] ∧
    some [(1, 0, 1, 1)] ≠ some [(2, 0, 1, 1)] := by
  exact ⟨by decide, by decide, by decide⟩

/-- Claim C9 (counterexample): a 2×3 grid with gap 1 over a (10,7) container
yields six cells of size (4,1) — `(7 - 1×2) / 3 = 1` — not the (4,2) the
claim (and the repository's `test_grid_config`) states. -/
theorem C9_grid_example_counterexample :
    (grid.GridConfig.mk 2 3 1 1).calculate_cells 10 7 =
      some [(0, 0, 4, 1), (5, 0, 4, 1), (0, 2, 4, 1), (5, 2, 4, 1),
            (0, 4, 4, 1), (5, 4, 4, 1)] ∧
    ∀ l, (grid.GridConfig.mk 2 3 1 1).calculate_cells 10 7 = some l →
      ¬ (0, 0, 4, 2) ∈ l := by
  refine ⟨by decide, ?_⟩
  intro l hl
  have : l = [(0, 0, 4, 1), (5, 0, 4, 1), (0, 2, 4, 1), (5, 2, 4, 1),
              (0, 4, 4, 1), (5, 4, 4, 1)] := by
    have h0 : (grid.GridConfig.mk 2 3 1 1).calculate_cells 10 7 =
        some [(0, 0, 4, 1), (5, 0, 4, 1), (0, 2, 4, 1), (5, 2, 4, 1),
              (0, 4, 4, 1), (5, 4, 4, 1)] := by decide
    rw [h0] at hl
    exact (Option.some_inj.mp hl).symm
  subst this
  decide

/-- Claim C3 (counterexample): the children live in a `HashMap`, whose
iteration order is unrelated to insertion order.  With A added first and B
added second, the map may legitimately iterate `[B, A]`; the dispatch loop
(reverse iteration order) then visits A first, A handles the click at (5,5)
and becomes active, and B is never invoked — the opposite of the claim. -/
theorem C3_dispatch_counterexample :
    Container.handle_event Button.handle_event
      [("b", Button.mk 0 0 10 10 false false),
       ("a", Button.mk 0 0 10 10 false false)]
      (Event.MouseClick .Left 5 5 {}) =
      (true, [("b", Button.mk 0 0 10 10 false false),
              ("a", Button.mk 0 0 10 10 true false)]) := by
  decide

/-- Claim C7 (counterexample): `Quit` is intercepted by `App::handle_event`
(it only stops the loop) and is delivered to **no** component; and inside a
container even a non-hit-testable event such as a timer short-circuits at
the first child returning handled=true, so the other child never receives
it. -/
theorem C7_broadcast_counterexample :
    App.handle_event ⟨[("p", ⟨0, true⟩)], true⟩ Event.Quit =
      ⟨[("p", ⟨0, true⟩)], false⟩ ∧
    Container.handle_event Probe.handle
      [("a", ⟨0, false⟩), ("b", ⟨0, true⟩)] (Event.Timer "t") =
      (true, [("a", ⟨0, false⟩), ("b", ⟨1, true⟩)]) := by
  exact ⟨by decide, by decide⟩

/-! ## Helper lemmas on the checked arithmetic -/

theorem add16_eq_some {a b : Nat} (h : a + b ≤ MAX16) :
    add16 a b = some (a + b) := by
  unfold add16; rw [if_pos h]

theorem sub16_eq_some {a b : Nat} (h : b ≤ a) :
    sub16 a b = some (a - b) := by
  unfold sub16; rw [if_pos h]

theorem mul16_eq_some {a b : Nat} (h : a * b ≤ MAX16) :
    mul16 a b = some (a * b) := by
  unfold mul16; rw [if_pos h]

theorem div16_eq_some {a b : Nat} (h : b ≠ 0) :
    div16 a b = some (a / b) := by
  unfold div16; rw [if_neg h]

theorem cast16_eq_self {a : Nat} (h : a ≤ MAX16) : cast16 a = a := by
  unfold cast16
  exact Nat.mod_eq_of_lt (Nat.lt_of_le_of_lt h (by norm_num [MAX16]))

theorem mapM_eq_some_map {α β : Type} (f : α → Option β) (g : α → β) :
    ∀ l : List α, (∀ a ∈ l, f a = some (g a)) → l.mapM f = some (l.map g) := by
  intro l
  induction l with
  | nil => intro _; rfl
  | cons hd tl ih =>
    intro h
    rw [List.mapM_cons, h hd (by simp), ih (fun a ha => h a (by simp [ha]))]
    rfl

theorem mapM_isSome {α β : Type} (f : α → Option β) :
    ∀ l : List α, (∀ a ∈ l, (f a).isSome) → (l.mapM f).isSome := by
  intro l
  induction l with
  | nil => intro _; rfl
  | cons hd tl ih =>
    intro h
    rw [List.mapM_cons]
    obtain ⟨b, hb⟩ := Option.isSome_iff_exists.mp (h hd (by simp))
    obtain ⟨bs, hbs⟩ := Option.isSome_iff_exists.mp (ih (fun a ha => h a (by simp [ha])))
    rw [hb, hbs]
    rfl

/-! ## Lemmas on the event dispatch loop -/

theorem dispatchRev_all_false {C : Type} (handle : C → Event → Bool × C)
    (e : Event) :
    ∀ l : List (String × C), (∀ p ∈ l, (handle p.2 e).1 = false) →
      Container.dispatchRev handle l e =
        (false, l.map (fun q => (q.1, (handle q.2 e).2))) := by
  intro l
  induction l with
  | nil => intro _; rfl
  | cons hd tl ih =>
    intro h
    obtain ⟨n, c⟩ := hd
    have hc : (handle c e).1 = false := h (n, c) (by simp)
    simp only [Container.dispatchRev, hc, Bool.false_eq_true, if_false,
      ih (fun p hp => h p (by simp [hp])), List.map_cons]

theorem dispatchRev_finds {C : Type} (handle : C → Event → Bool × C)
    (e : Event) :
    ∀ (pre : List (String × C)) (n : String) (c : C)
      (post : List (String × C)),
      (∀ p ∈ pre, (handle p.2 e).1 = false) →
      (handle c e).1 = true →
      Container.dispatchRev handle (pre ++ (n, c) :: post) e =
        (true, pre.map (fun q => (q.1, (handle q.2 e).2)) ++
          (n, (handle c e).2) :: post) := by
  intro pre
  induction pre with
  | nil =>
    intro n c post _ hc
    simp only [List.nil_append, Container.dispatchRev, hc, if_true, List.map_nil]
  | cons hd tl ih =>
    intro n c post hpre hc
    obtain ⟨m, d⟩ := hd
    have hd1 : (handle d e).1 = false := hpre (m, d) (by simp)
    simp only [List.cons_append, Container.dispatchRev, hd1, Bool.false_eq_true,
      if_false]
    rw [List.append_eq, ih n c post (fun p hp => hpre p (by simp [hp])) hc]
    simp

/-- Claim C3 (amended): children are tested in reverse of the child map's
iteration order (which, being a `HashMap`, is unspecified and unrelated to
insertion order); the first child returning handled=true stops propagation,
and the children later in the dispatch order are returned untouched (never
invoked); when no child handles, every child is invoked. -/
theorem C3_amended {C : Type} (handle : C → Event → Bool × C) :
    (∀ (children : List (String × C)) (e : Event) (pre : List (String × C))
        (n : String) (c : C) (post : List (String × C)),
      children.reverse = pre ++ (n, c) :: post →
      (∀ p ∈ pre, (handle p.2 e).1 = false) →
      (handle c e).1 = true →
      Container.handle_event handle children e =
        (true, (pre.map (fun q => (q.1, (handle q.2 e).2)) ++
          (n, (handle c e).2) :: post).reverse)) ∧
    (∀ (children : List (String × C)) (e : Event),
      (∀ p ∈ children, (handle p.2 e).1 = false) →
      Container.handle_event handle children e =
        (false, children.map (fun q => (q.1, (handle q.2 e).2)))) := by
  constructor
  · intro children e pre n c post hrev hpre hc
    unfold Container.handle_event
    rw [hrev, dispatchRev_finds handle e pre n c post hpre hc]
  · intro children e h
    unfold Container.handle_event
    rw [dispatchRev_all_false handle e children.reverse
      (fun p hp => h p (List.mem_reverse.mp hp))]
    simp [List.map_reverse]

/-- Claim C3 (witness): the amended dispatch theorem applied to the two
overlapping buttons under map iteration order `[B, A]`: A (first in the
reversed order) handles the click, B is untouched. -/
theorem C3_amended_witness :
    Container.handle_event Button.handle_event
      [("b", Button.mk 0 0 10 10 false false),
       ("a", Button.mk 0 0 10 10 false false)]
      (Event.MouseClick .Left 5 5 {}) =
      (true, [("b", Button.mk 0 0 10 10 false false),
              ("a", Button.mk 0 0 10 10 true false)]) := by
  have h := (C3_amended Button.handle_event).1
    [("b", Button.mk 0 0 10 10 false false),
     ("a", Button.mk 0 0 10 10 false false)]
    (Event.MouseClick .Left 5 5 {})
    [] "a" (Button.mk 0 0 10 10 false false)
    [("b", Button.mk 0 0 10 10 false false)]
    (by decide) (by simp) (by decide)
  rw [h]
  decide

/-- Claim C7 (amended): `App::handle_event` delivers every event other than
`Quit` to every top-level component, ignoring the handled results (no
short-circuit), and leaves `running` unchanged; `Quit` is intercepted — it
only clears `running` and is delivered to no component. -/
theorem C7_amended :
    (∀ (a : App.State) (e : Event), e ≠ Event.Quit →
      App.handle_event a e =
        { a with components :=
            a.components.map (fun p => (p.1, ⟨p.2.hits + 1, p.2.handledFlag⟩)) }) ∧
    (∀ a : App.State,
      App.handle_event a Event.Quit = { a with running := false }) := by
  constructor
  · intro a e he
    cases e <;> first
      | exact absurd rfl he
      | rfl
  · intro a
    rfl

/-- Claim C7 (witness): a timer event reaches both probes (each hit count
goes to 1) even though the first probe in iteration order reports
handled=true. -/
theorem C7_amended_witness :
    (Event.Timer "t") ≠ Event.Quit ∧
    App.handle_event ⟨[("p", ⟨0, true⟩), ("q", ⟨0, false⟩)], true⟩
        (Event.Timer "t") =
      ⟨[("p", ⟨1, true⟩), ("q", ⟨1, false⟩)], true⟩ := by
  refine ⟨by decide, ?_⟩
  rw [C7_amended.1 ⟨[("p", ⟨0, true⟩), ("q", ⟨0, false⟩)], true⟩
    (Event.Timer "t") (by decide)]
  decide

/-! ## Lemmas on the child map -/

theorem lookup_map_replace {C : Type} (k : String) (v : C) :
    ∀ m : List (String × C), (m.lookup k).isSome →
      (m.map (fun p => if p.1 = k then (k, v) else p)).lookup k = some v := by
  intro m
  induction m with
  | nil => intro h; simp at h
  | cons hd tl ih =>
    intro h
    obtain ⟨a, c⟩ := hd
    by_cases hak : a = k
    · subst hak
      simp [List.lookup_cons]
    · have hka : (k == a) = false := beq_false_of_ne (fun hh => hak hh.symm)
      rw [List.lookup_cons, hka] at h
      simp only [List.map_cons, if_neg hak, List.lookup_cons, hka]
      exact ih h

theorem lookup_map_replace_ne {C : Type} (k other : String) (v : C)
    (hne : other ≠ k) :
    ∀ m : List (String × C),
      (m.map (fun p => if p.1 = k then (k, v) else p)).lookup other =
        m.lookup other := by
  intro m
  induction m with
  | nil => rfl
  | cons hd tl ih =>
    obtain ⟨a, c⟩ := hd
    by_cases hak : a = k
    · subst hak
      have h1 : (other == a) = false := beq_false_of_ne hne
      simp only [List.map_cons, eq_self_iff_true, if_true, List.lookup_cons, h1]
      exact ih
    · simp only [List.map_cons, if_neg hak, List.lookup_cons]
      cases hoa : other == a with
      | true => rfl
      | false => exact ih

/-- Claim C10: adding a child under a name that is already present replaces
the stored component: `get_child` then returns the new component, the child
count is unchanged, and every other name still maps to its old component. -/
theorem C10_add_child_replaces {C : Type} (children : List (String × C))
    (name : String) (component old : C)
    (h : Container.get_child children name = some old) :
    Container.get_child (Container.add_child children name component) name =
      some component ∧
    (Container.add_child children name component).length = children.length ∧
    ∀ other, other ≠ name →
      Container.get_child (Container.add_child children name component) other =
        Container.get_child children other := by
  have hs : (children.lookup name).isSome := by
    unfold Container.get_child at h
    rw [h]; rfl
  unfold Container.add_child insertHM Container.get_child
  rw [if_pos hs]
  exact ⟨lookup_map_replace name component children hs, by simp,
    fun other hne => lookup_map_replace_ne name other component hne children⟩

/-- Claim C10 (witness): replacing the child stored under `"x"` in a
two-child map. -/
theorem C10_witness :
    Container.get_child (Container.add_child
        ([("x", 1), ("y", 2)] : List (String × Nat)) "x" 9) "x" = some 9 ∧
    (Container.add_child
        ([("x", 1), ("y", 2)] : List (String × Nat)) "x" 9).length = 2 ∧
    Container.get_child (Container.add_child
        ([("x", 1), ("y", 2)] : List (String × Nat)) "x" 9) "y" = some 2 := by
  have h := C10_add_child_replaces ([("x", 1), ("y", 2)] : List (String × Nat))
    "x" 9 1 (by decide)
  refine ⟨h.1, ?_, ?_⟩
  · rw [h.2.1]
    rfl
  · rw [h.2.2 "y" (by decide)]
    decide

/-! ## Lemmas on the tick trace -/

theorem tick_trace_eq (names : List String) :
    App.tick_trace names =
      Phase.clear ::
        (names.map Phase.render ++ Phase.present :: names.map Phase.update) := by
  unfold App.tick_trace App.render_trace App.update_trace
  simp

theorem render_pos (names : List String) (i : Nat) (n : String)
    (h : (App.tick_trace names).get? i = some (Phase.render n)) :
    1 ≤ i ∧ i ≤ names.length := by
  rw [tick_trace_eq] at h
  cases i with
  | zero => simp at h
  | succ k =>
    rw [List.get?_cons_succ] at h
    by_cases hk : k < (names.map Phase.render).length
    · rw [List.get?_append hk] at h
      simp at hk
      omega
    · exfalso
      push_neg at hk
      rw [List.get?_append_right hk] at h
      rcases hd : k - (names.map Phase.render).length with _ | j
      · rw [hd] at h
        simp at h
      · rw [hd] at h
        rw [List.get?_cons_succ, List.get?_map] at h
        cases hu : names.get? j with
        | none => rw [hu] at h; simp at h
        | some m => rw [hu] at h; simp at h

theorem present_pos (names : List String) (k : Nat)
    (h : (App.tick_trace names).get? k = some Phase.present) :
    k = names.length + 1 := by
  rw [tick_trace_eq] at h
  cases k with
  | zero => simp at h
  | succ j =>
    rw [List.get?_cons_succ] at h
    by_cases hj : j < (names.map Phase.render).length
    · exfalso
      rw [List.get?_append hj, List.get?_map] at h
      cases hu : names.get? j with
      | none => rw [hu] at h; simp at h
      | some m => rw [hu] at h; simp at h
    · push_neg at hj
      rw [List.get?_append_right hj] at h
      rcases hd : j - (names.map Phase.render).length with _ | t
      · simp at hj hd ⊢
        omega
      · exfalso
        rw [hd, List.get?_cons_succ, List.get?_map] at h
        cases hu : names.get? t with
        | none => rw [hu] at h; simp at h
        | some m => rw [hu] at h; simp at h

theorem update_pos (names : List String) (j : Nat) (m : String)
    (h : (App.tick_trace names).get? j = some (Phase.update m)) :
    names.length + 2 ≤ j := by
  rw [tick_trace_eq] at h
  cases j with
  | zero => simp at h
  | succ k =>
    rw [List.get?_cons_succ] at h
    by_cases hk : k < (names.map Phase.render).length
    · exfalso
      rw [List.get?_append hk, List.get?_map] at h
      cases hu : names.get? k with
      | none => rw [hu] at h; simp at h
      | some q => rw [hu] at h; simp at h
    · push_neg at hk
      rw [List.get?_append_right hk] at h
      rcases hd : k - (names.map Phase.render).length with _ | t
      · exfalso
        rw [hd] at h
        simp at h
      · simp at hk hd
        omega

/-- Claim C4 (amended): in each tick of `App::run` the render phase (and
the `present()` inside it) completes **before** the update phase — in the
tick trace every render event of a component precedes the present event,
and the present event precedes every update hook (inside which containers
perform their layout via `arrange_children`).  This is the reverse of the
claimed layout → update → render → present order. -/
theorem C4_amended (names : List String) :
    (∀ i j n m, (App.tick_trace names).get? i = some (Phase.render n) →
      (App.tick_trace names).get? j = some (Phase.update m) → i < j) ∧
    (∀ i k n, (App.tick_trace names).get? i = some (Phase.render n) →
      (App.tick_trace names).get? k = some Phase.present → i < k) ∧
    (∀ k j m, (App.tick_trace names).get? k = some Phase.present →
      (App.tick_trace names).get? j = some (Phase.update m) → k < j) := by
  refine ⟨?_, ?_, ?_⟩
  · intro i j n m hi hj
    have h1 := render_pos names i n hi
    have h2 := update_pos names j m hj
    omega
  · intro i k n hi hk
    have h1 := render_pos names i n hi
    have h2 := present_pos names k hk
    omega
  · intro k j m hk hj
    have h1 := present_pos names k hk
    have h2 := update_pos names j m hj
    omega

/-- Claim C4 (counterexample): with a single component the tick trace is
clear, render, present, update — the component renders (index 1) before its
update hook runs (index 3), contradicting the claimed phase order. -/
theorem C4_tick_order_counterexample :
    App.tick_trace ["c"] =
      [Phase.clear, Phase.render "c", Phase.present, Phase.update "c"] ∧
    (App.tick_trace ["c"]).get? 1 = some (Phase.render "c") ∧
    (App.tick_trace ["c"]).get? 3 = some (Phase.update "c") ∧
    (App.tick_trace ["c"]).get? 0 ≠ some (Phase.update "c") := by
  refine ⟨by decide, by decide, by decide, by decide⟩

/-- Claim C4 (witness): the phase-order theorem instantiated on the
one-component trace. -/
theorem C4_amended_witness :
    (1 : Nat) < 3 ∧ (1 : Nat) < 2 ∧ (2 : Nat) < 3 := by
  refine ⟨?_, ?_, ?_⟩
  · exact (C4_amended ["c"]).1 1 3 "c" "c" (by decide) (by decide)
  · exact (C4_amended ["c"]).2.1 1 2 "c" (by decide) (by decide)
  · exact (C4_amended ["c"]).2.2 2 3 "c" (by decide) (by decide)

/-! ## Lemmas relating SpaceAround and SpaceEvenly -/

theorem rowLoop_cons (H : Nat) (j : flex.Justify) (a : flex.Align)
    (n av g i cx iw ihh : Nat) (rest : List (Nat × Nat)) :
    flex.rowLoop H j a n av g i cx ((iw, ihh) :: rest) =
      (flex.crossOffset a H ihh).bind (fun y =>
        (flex.stepAfter j i n av g).bind (fun step =>
          (add16 iw step).bind (fun s =>
            (add16 cx s).bind (fun cx2 =>
              (flex.rowLoop H j a n av g (i + 1) cx2 rest).bind (fun tail =>
                some ((cx, y, iw,
                  if a = .Stretch then H else ihh) :: tail)))))) := rfl

theorem colLoop_cons (W : Nat) (j : flex.Justify) (a : flex.Align)
    (n av g i cy iw ihh : Nat) (rest : List (Nat × Nat)) :
    flex.colLoop W j a n av g i cy ((iw, ihh) :: rest) =
      (flex.crossOffset a W iw).bind (fun x =>
        (flex.stepAfter j i n av g).bind (fun step =>
          (add16 ihh step).bind (fun s =>
            (add16 cy s).bind (fun cy2 =>
              (flex.colLoop W j a n av g (i + 1) cy2 rest).bind (fun tail =>
                some ((x, cy,
                  if a = .Stretch then W else iw, ihh) :: tail)))))) := rfl

theorem rowLoop_around_evenly (H : Nat) (a : flex.Align) (n av g : Nat) :
    ∀ (items : List (Nat × Nat)) (i cx sh : Nat)
      (t u : List (Nat × Nat × Nat × Nat)),
      flex.rowLoop H .SpaceAround a n av g i cx items = some t →
      flex.rowLoop H .SpaceEvenly a n av g i (cx + sh) items = some u →
      u = t.map (fun p => (p.1 + sh, p.2)) := by
  intro items
  induction items with
  | nil =>
    intro i cx sh t u ht hu
    simp only [flex.rowLoop] at ht hu
    rw [← Option.some_inj.mp ht, ← Option.some_inj.mp hu]
    rfl
  | cons hd tl ihl =>
    intro i cx sh t u ht hu
    obtain ⟨iw, ihh⟩ := hd
    rw [rowLoop_cons] at ht hu
    cases hy : flex.crossOffset a H ihh with
    | none => rw [hy] at ht; simp at ht
    | some y =>
      rw [hy, Option.some_bind] at ht hu
      have hsa : flex.stepAfter .SpaceAround i n av g = some g := rfl
      have hse : flex.stepAfter .SpaceEvenly i n av g = some g := rfl
      rw [hsa, Option.some_bind] at ht
      rw [hse, Option.some_bind] at hu
      cases hs : add16 iw g with
      | none => rw [hs] at ht; simp at ht
      | some s =>
        rw [hs, Option.some_bind] at ht hu
        cases hc1 : add16 cx s with
        | none => rw [hc1] at ht; simp at ht
        | some cx2 =>
          rw [hc1, Option.some_bind] at ht
          cases hc2 : add16 (cx + sh) s with
          | none => rw [hc2] at hu; simp at hu
          | some cxe2 =>
            rw [hc2, Option.some_bind] at hu
            cases htail : flex.rowLoop H .SpaceAround a n av g (i + 1) cx2 tl with
            | none => rw [htail] at ht; simp at ht
            | some t2 =>
              rw [htail, Option.some_bind] at ht
              cases hutail : flex.rowLoop H .SpaceEvenly a n av g (i + 1) cxe2 tl with
              | none => rw [hutail] at hu; simp at hu
              | some u2 =>
                rw [hutail, Option.some_bind] at hu
                have hcx2 : cx2 = cx + s := by
                  unfold add16 at hc1
                  by_cases hle : cx + s ≤ MAX16
                  · rw [if_pos hle] at hc1; exact (Option.some_inj.mp hc1).symm
                  · rw [if_neg hle] at hc1; exact absurd hc1 (by simp)
                have hcxe2 : cxe2 = cx + sh + s := by
                  unfold add16 at hc2
                  by_cases hle : cx + sh + s ≤ MAX16
                  · rw [if_pos hle] at hc2; exact (Option.some_inj.mp hc2).symm
                  · rw [if_neg hle] at hc2; exact absurd hc2 (by simp)
                have heq : cxe2 = cx2 + sh := by omega
                rw [heq] at hutail
                have := ihl (i + 1) cx2 sh t2 u2 htail hutail
                rw [← Option.some_inj.mp ht, ← Option.some_inj.mp hu, this]
                rfl

theorem colLoop_around_evenly (W : Nat) (a : flex.Align) (n av g : Nat) :
    ∀ (items : List (Nat × Nat)) (i cy sh : Nat)
      (t u : List (Nat × Nat × Nat × Nat)),
      flex.colLoop W .SpaceAround a n av g i cy items = some t →
      flex.colLoop W .SpaceEvenly a n av g i (cy + sh) items = some u →
      u = t.map (fun p => (p.1, p.2.1 + sh, p.2.2)) := by
  intro items
  induction items with
  | nil =>
    intro i cy sh t u ht hu
    simp only [flex.colLoop] at ht hu
    rw [← Option.some_inj.mp ht, ← Option.some_inj.mp hu]
    rfl
  | cons hd tl ihl =>
    intro i cy sh t u ht hu
    obtain ⟨iw, ihh⟩ := hd
    rw [colLoop_cons] at ht hu
    cases hy : flex.crossOffset a W iw with
    | none => rw [hy] at ht; simp at ht
    | some x =>
      rw [hy, Option.some_bind] at ht hu
      have hsa : flex.stepAfter .SpaceAround i n av g = some g := rfl
      have hse : flex.stepAfter .SpaceEvenly i n av g = some g := rfl
      rw [hsa, Option.some_bind] at ht
      rw [hse, Option.some_bind] at hu
      cases hs : add16 ihh g with
      | none => rw [hs] at ht; simp at ht
      | some s =>
        rw [hs, Option.some_bind] at ht hu
        cases hc1 : add16 cy s with
        | none => rw [hc1] at ht; simp at ht
        | some cy2 =>
          rw [hc1, Option.some_bind] at ht
          cases hc2 : add16 (cy + sh) s with
          | none => rw [hc2] at hu; simp at hu
          | some cye2 =>
            rw [hc2, Option.some_bind] at hu
            cases htail : flex.colLoop W .SpaceAround a n av g (i + 1) cy2 tl with
            | none => rw [htail] at ht; simp at ht
            | some t2 =>
              rw [htail, Option.some_bind] at ht
              cases hutail : flex.colLoop W .SpaceEvenly a n av g (i + 1) cye2 tl with
              | none => rw [hutail] at hu; simp at hu
              | some u2 =>
                rw [hutail, Option.some_bind] at hu
                have hcy2 : cy2 = cy + s := by
                  unfold add16 at hc1
                  by_cases hle : cy + s ≤ MAX16
                  · rw [if_pos hle] at hc1; exact (Option.some_inj.mp hc1).symm
                  · rw [if_neg hle] at hc1; exact absurd hc1 (by simp)
                have hcye2 : cye2 = cy + sh + s := by
                  unfold add16 at hc2
                  by_cases hle : cy + sh + s ≤ MAX16
                  · rw [if_pos hle] at hc2; exact (Option.some_inj.mp hc2).symm
                  · rw [if_neg hle] at hc2; exact absurd hc2 (by simp)
                have heq : cye2 = cy2 + sh := by omega
                rw [heq] at hutail
                have := ihl (i + 1) cy2 sh t2 u2 htail hutail
                rw [← Option.some_inj.mp ht, ← Option.some_inj.mp hu, this]
                rfl

theorem calculate_layout_row (W H : Nat) (j : flex.Justify) (a : flex.Align)
    (items : List (Nat × Nat)) (gaps : Nat)
    (h : ¬ items.isEmpty = true) :
    flex.calculate_layout W H .Row j a items gaps =
      (sum16 (items.map Prod.fst)).bind (fun tw =>
        (mul16 gaps (cast16 (items.length - 1))).bind (fun tg =>
          (add16 tw tg).bind (fun t =>
            flex.rowLoop H j a items.length (W - t) gaps 0
              (flex.justifyStart j (W - t) gaps) items))) := by
  unfold flex.calculate_layout
  rw [if_neg h]
  rfl

theorem calculate_layout_col (W H : Nat) (j : flex.Justify) (a : flex.Align)
    (items : List (Nat × Nat)) (gaps : Nat)
    (h : ¬ items.isEmpty = true) :
    flex.calculate_layout W H .Column j a items gaps =
      (sum16 (items.map Prod.snd)).bind (fun tw =>
        (mul16 gaps (cast16 (items.length - 1))).bind (fun tg =>
          (add16 tw tg).bind (fun t =>
            flex.colLoop W j a items.length (H - t) gaps 0
              (flex.justifyStart j (H - t) gaps) items))) := by
  unfold flex.calculate_layout
  rw [if_neg h]
  rfl

/-- Claim C6 (amended): `SpaceAround` and `SpaceEvenly` do **not** return
identical positions in general: they use the same per-item spacing (the
configured gap), but `SpaceAround` starts the run at `gap/2` while
`SpaceEvenly` starts it at `gap`; whenever both succeed, the `SpaceEvenly`
layout is the `SpaceAround` layout shifted by `gap - gap/2` along the main
axis (sizes and cross-axis positions identical).  They coincide exactly when
the gap is 0. -/
theorem C6_amended :
    ∀ (W H : Nat) (d : flex.Direction) (a : flex.Align)
      (items : List (Nat × Nat)) (gaps : Nat)
      (ps qs : List (Nat × Nat × Nat × Nat)),
      flex.calculate_layout W H d .SpaceAround a items gaps = some ps →
      flex.calculate_layout W H d .SpaceEvenly a items gaps = some qs →
      qs = ps.map (flex.mainShift d (gaps - gaps / 2)) := by
  intro W H d a items gaps ps qs hp hq
  by_cases hemp : items.isEmpty
  · unfold flex.calculate_layout at hp hq
    rw [if_pos hemp] at hp hq
    rw [← Option.some_inj.mp hp, ← Option.some_inj.mp hq]
    rfl
  · cases d with
    | Row =>
      rw [calculate_layout_row W H _ a items gaps hemp] at hp hq
      cases hsw : sum16 (items.map Prod.fst) with
      | none => rw [hsw] at hp; simp at hp
      | some tw =>
        rw [hsw, Option.some_bind] at hp hq
        cases hgw : mul16 gaps (cast16 (items.length - 1)) with
        | none => rw [hgw] at hp; simp at hp
        | some tg =>
          rw [hgw, Option.some_bind] at hp hq
          cases hT : add16 tw tg with
          | none => rw [hT] at hp; simp at hp
          | some t =>
            rw [hT, Option.some_bind] at hp hq
            have h1 : flex.justifyStart .SpaceAround (W - t) gaps = gaps / 2 := rfl
            have h2 : flex.justifyStart .SpaceEvenly (W - t) gaps = gaps := rfl
            rw [h1] at hp
            rw [h2] at hq
            have hq2 : flex.rowLoop H .SpaceEvenly a items.length (W - t) gaps 0
                (gaps / 2 + (gaps - gaps / 2)) items = some qs := by
              rw [show gaps / 2 + (gaps - gaps / 2) = gaps from by omega]
              exact hq
            exact rowLoop_around_evenly H a items.length (W - t) gaps items 0
              (gaps / 2) (gaps - gaps / 2) ps qs hp hq2
    | Column =>
      rw [calculate_layout_col W H _ a items gaps hemp] at hp hq
      cases hsw : sum16 (items.map Prod.snd) with
      | none => rw [hsw] at hp; simp at hp
      | some tw =>
        rw [hsw, Option.some_bind] at hp hq
        cases hgw : mul16 gaps (cast16 (items.length - 1)) with
        | none => rw [hgw] at hp; simp at hp
        | some tg =>
          rw [hgw, Option.some_bind] at hp hq
          cases hT : add16 tw tg with
          | none => rw [hT] at hp; simp at hp
          | some t =>
            rw [hT, Option.some_bind] at hp hq
            have h1 : flex.justifyStart .SpaceAround (H - t) gaps = gaps / 2 := rfl
            have h2 : flex.justifyStart .SpaceEvenly (H - t) gaps = gaps := rfl
            rw [h1] at hp
            rw [h2] at hq
            have hq2 : flex.colLoop W .SpaceEvenly a items.length (H - t) gaps 0
                (gaps / 2 + (gaps - gaps / 2)) items = some qs := by
              rw [show gaps / 2 + (gaps - gaps / 2) = gaps from by omega]
              exact hq
            exact colLoop_around_evenly W a items.length (H - t) gaps items 0
              (gaps / 2) (gaps - gaps / 2) ps qs hp hq2

/-- Claim C6 (witness): the shift theorem applied to a single (1,1) item in
a 10×10 row with gap 2: the `SpaceEvenly` run is the `SpaceAround` run
shifted right by 1. -/
theorem C6_amended_witness :
    ([(2, 0, 1, 1)] : List (Nat × Nat × Nat × Nat)) =
      ([(1, 0, 1, 1)] : List (Nat × Nat × Nat × Nat)).map
        (flex.mainShift .Row (2 - 2 / 2)) :=
  C6_amended 10 10 .Row .Start [(1, 1)] 2 [(1, 0, 1, 1)] [(2, 0, 1, 1)]
    (by decide) (by decide)

/-! ## Totality lemmas for the layout calculators -/

theorem foldlM_add16_eq (l : List Nat) :
    ∀ acc, acc + l.sum ≤ MAX16 → l.foldlM add16 acc = some (acc + l.sum) := by
  induction l with
  | nil => intro acc h; simp
  | cons hd tl ih =>
    intro acc h
    rw [List.sum_cons] at h
    rw [List.foldlM_cons, add16_eq_some (by omega)]
    show tl.foldlM add16 (acc + hd) = _
    rw [ih (acc + hd) (by omega), List.sum_cons]
    congr 1
    omega

theorem sum16_eq_some (l : List Nat) (h : l.sum ≤ MAX16) :
    sum16 l = some l.sum := by
  have := foldlM_add16_eq l 0 (by omega)
  simpa [sum16] using this

theorem crossOffset_isSome (a : flex.Align) (ce ie : Nat) (h : ie ≤ ce) :
    ∃ y, flex.crossOffset a ce ie = some y := by
  cases a with
  | Start => exact ⟨0, rfl⟩
  | Stretch => exact ⟨0, rfl⟩
  | Center =>
    refine ⟨(ce - ie) / 2, ?_⟩
    rw [show flex.crossOffset .Center ce ie =
      (sub16 ce ie).bind (fun d => some (d / 2)) from rfl, sub16_eq_some h,
      Option.some_bind]
  | End =>
    exact ⟨ce - ie, by
      rw [show flex.crossOffset .End ce ie = sub16 ce ie from rfl,
        sub16_eq_some h]⟩

theorem rowLoop_total (H : Nat) (j : flex.Justify) (a : flex.Align)
    (n av g stepB : Nat)
    (hstep : ∀ i, ∃ st, flex.stepAfter j i n av g = some st ∧ st ≤ stepB) :
    ∀ (items : List (Nat × Nat)) (i cx : Nat),
      (∀ p ∈ items, p.2 ≤ H) →
      cx + (items.map Prod.fst).sum + items.length * stepB ≤ MAX16 →
      (flex.rowLoop H j a n av g i cx items).isSome := by
  intro items
  induction items with
  | nil => intro i cx _ _; rfl
  | cons hd tl ih =>
    intro i cx hcross hbud
    obtain ⟨iw, ihh⟩ := hd
    simp only [List.map_cons, List.sum_cons, List.length_cons] at hbud
    rw [Nat.succ_mul] at hbud
    rw [rowLoop_cons]
    obtain ⟨y, hy⟩ := crossOffset_isSome a H ihh (hcross (iw, ihh) (by simp))
    rw [hy, Option.some_bind]
    obtain ⟨st, hst, hstB⟩ := hstep i
    rw [hst, Option.some_bind]
    have hkey : iw + st ≤ MAX16 ∧ cx + (iw + st) ≤ MAX16 ∧
        cx + (iw + st) + (List.map Prod.fst tl).sum + tl.length * stepB ≤ MAX16 := by
      generalize tl.length * stepB = q at hbud ⊢
      omega
    rw [add16_eq_some hkey.1, Option.some_bind]
    rw [add16_eq_some hkey.2.1, Option.some_bind]
    have h3 := ih (i + 1) (cx + (iw + st))
      (fun p hp => hcross p (by simp [hp])) hkey.2.2
    obtain ⟨tail, htail⟩ := Option.isSome_iff_exists.mp h3
    rw [htail, Option.some_bind]
    rfl

theorem colLoop_total (W : Nat) (j : flex.Justify) (a : flex.Align)
    (n av g stepB : Nat)
    (hstep : ∀ i, ∃ st, flex.stepAfter j i n av g = some st ∧ st ≤ stepB) :
    ∀ (items : List (Nat × Nat)) (i cy : Nat),
      (∀ p ∈ items, p.1 ≤ W) →
      cy + (items.map Prod.snd).sum + items.length * stepB ≤ MAX16 →
      (flex.colLoop W j a n av g i cy items).isSome := by
  intro items
  induction items with
  | nil => intro i cy _ _; rfl
  | cons hd tl ih =>
    intro i cy hcross hbud
    obtain ⟨iw, ihh⟩ := hd
    simp only [List.map_cons, List.sum_cons, List.length_cons] at hbud
    rw [Nat.succ_mul] at hbud
    rw [colLoop_cons]
    obtain ⟨x, hx⟩ := crossOffset_isSome a W iw (hcross (iw, ihh) (by simp))
    rw [hx, Option.some_bind]
    obtain ⟨st, hst, hstB⟩ := hstep i
    rw [hst, Option.some_bind]
    have hkey : ihh + st ≤ MAX16 ∧ cy + (ihh + st) ≤ MAX16 ∧
        cy + (ihh + st) + (List.map Prod.snd tl).sum + tl.length * stepB ≤ MAX16 := by
      generalize tl.length * stepB = q at hbud ⊢
      omega
    rw [add16_eq_some hkey.1, Option.some_bind]
    rw [add16_eq_some hkey.2.1, Option.some_bind]
    have h3 := ih (i + 1) (cy + (ihh + st))
      (fun p hp => hcross p (by simp [hp])) hkey.2.2
    obtain ⟨tail, htail⟩ := Option.isSome_iff_exists.mp h3
    rw [htail, Option.some_bind]
    rfl

theorem justifyStart_le (j : flex.Justify) (av g : Nat) :
    flex.justifyStart j av g ≤ av + g := by
  cases j with
  | Start => exact Nat.zero_le _
  | Center => exact le_trans (Nat.div_le_self av 2) (Nat.le_add_right av g)
  | End => exact Nat.le_add_right av g
  | SpaceBetween => exact Nat.zero_le _
  | SpaceAround => exact le_trans (Nat.div_le_self g 2) (Nat.le_add_left g av)
  | SpaceEvenly => exact Nat.le_add_left g av

theorem flex_step_bound (j : flex.Justify) (n av g Wdim S : Nat)
    (hav : av ≤ Wdim) (hn1 : n - 1 ≤ MAX16)
    (hbig : 2 * Wdim + S + (n + 1) * g ≤ MAX16) :
    ∃ stepB, (∀ i, ∃ st, flex.stepAfter j i n av g = some st ∧ st ≤ stepB) ∧
      flex.justifyStart j av g + S + n * stepB ≤ MAX16 := by
  by_cases hj : j = .SpaceBetween
  · subst hj
    refine ⟨if 1 < n then av / (n - 1) else 0, ?_, ?_⟩
    · intro i
      by_cases hi : i < n - 1
      · have hn2 : 1 < n := by omega
        refine ⟨av / (n - 1), ?_, by rw [if_pos hn2]⟩
        rw [show flex.stepAfter .SpaceBetween i n av g =
          (if i < n - 1 then div16 av (cast16 (n - 1)) else some 0) from rfl,
          if_pos hi, cast16_eq_self hn1, div16_eq_some (by omega)]
      · refine ⟨0, ?_, Nat.zero_le _⟩
        rw [show flex.stepAfter .SpaceBetween i n av g =
          (if i < n - 1 then div16 av (cast16 (n - 1)) else some 0) from rfl,
          if_neg hi]
    · have hq : n * (if 1 < n then av / (n - 1) else 0) ≤ 2 * av := by
        by_cases hn2 : 1 < n
        · rw [if_pos hn2]
          have d1 : (n - 1) * (av / (n - 1)) ≤ av := by
            rw [Nat.mul_comm]
            exact Nat.div_mul_le_self av (n - 1)
          have d2 : av / (n - 1) ≤ av := Nat.div_le_self _ _
          have hn3 : n = (n - 1) + 1 := by omega
          calc n * (av / (n - 1)) = (n - 1) * (av / (n - 1)) + av / (n - 1) := by
                nth_rewrite 1 [hn3]
                rw [Nat.succ_mul]
            _ ≤ av + av := Nat.add_le_add d1 d2
            _ = 2 * av := by omega
        · rw [if_neg hn2]
          simp
      rw [show flex.justifyStart .SpaceBetween av g = 0 from rfl]
      generalize n * (if 1 < n then av / (n - 1) else 0) = t at hq ⊢
      generalize (n + 1) * g = X at hbig
      omega
  · refine ⟨g, fun i => ⟨g, ?_, le_refl g⟩, ?_⟩
    · cases j <;> first | rfl | exact absurd rfl hj
    · have h1 := justifyStart_le j av g
      have h2 : (n + 1) * g = n * g + g := by rw [Nat.succ_mul]
      rw [h2] at hbig
      generalize hs : flex.justifyStart j av g = js at h1 ⊢
      generalize n * g = t at hbig ⊢
      omega

theorem calculate_layout_total (W H : Nat) (d : flex.Direction)
    (j : flex.Justify) (a : flex.Align) (items : List (Nat × Nat)) (gaps : Nat)
    (hcross : ∀ p ∈ items, p.1 ≤ W ∧ p.2 ≤ H)
    (hn : items.length ≤ MAX16)
    (hrow : 2 * W + (items.map Prod.fst).sum + (items.length + 1) * gaps ≤ MAX16)
    (hcol : 2 * H + (items.map Prod.snd).sum + (items.length + 1) * gaps ≤ MAX16) :
    (flex.calculate_layout W H d j a items gaps).isSome := by
  by_cases hemp : items.isEmpty
  · unfold flex.calculate_layout
    rw [if_pos hemp]
    rfl
  · have hn' : items.length - 1 ≤ MAX16 := by omega
    cases d with
    | Row =>
      have hSM : (items.map Prod.fst).sum ≤ MAX16 := by
        have h' : 2 * W + (items.map Prod.fst).sum ≤ MAX16 :=
          le_trans (Nat.le_add_right _ _) hrow
        omega
      have e1 : gaps * (items.length - 1) ≤ (items.length + 1) * gaps := by
        rw [Nat.mul_comm gaps]
        exact Nat.mul_le_mul_right gaps (by omega)
      have e2 : (items.length + 1) * gaps ≤ MAX16 :=
        le_trans (Nat.le_add_left _ _) hrow
      have hYM : gaps * (items.length - 1) ≤ MAX16 := le_trans e1 e2
      have hadd : (items.map Prod.fst).sum + gaps * (items.length - 1) ≤ MAX16 := by
        calc (items.map Prod.fst).sum + gaps * (items.length - 1)
            ≤ (items.map Prod.fst).sum + (items.length + 1) * gaps :=
              Nat.add_le_add_left e1 _
          _ ≤ 2 * W + ((items.map Prod.fst).sum + (items.length + 1) * gaps) :=
              Nat.le_add_left _ _
          _ = 2 * W + (items.map Prod.fst).sum + (items.length + 1) * gaps :=
              (Nat.add_assoc _ _ _).symm
          _ ≤ MAX16 := hrow
      rw [calculate_layout_row W H j a items gaps hemp,
        sum16_eq_some (items.map Prod.fst) hSM, Option.some_bind,
        cast16_eq_self hn', mul16_eq_some hYM, Option.some_bind,
        add16_eq_some hadd, Option.some_bind]
      obtain ⟨stepB, hstep, hbud⟩ := flex_step_bound j items.length
        (W - ((items.map Prod.fst).sum + gaps * (items.length - 1))) gaps W
        ((items.map Prod.fst).sum) (Nat.sub_le _ _) hn' hrow
      exact rowLoop_total H j a items.length _ gaps stepB hstep items 0 _
        (fun p hp => (hcross p hp).2) hbud
    | Column =>
      have hSM : (items.map Prod.snd).sum ≤ MAX16 := by
        have h' : 2 * H + (items.map Prod.snd).sum ≤ MAX16 :=
          le_trans (Nat.le_add_right _ _) hcol
        omega
      have e1 : gaps * (items.length - 1) ≤ (items.length + 1) * gaps := by
        rw [Nat.mul_comm gaps]
        exact Nat.mul_le_mul_right gaps (by omega)
      have e2 : (items.length + 1) * gaps ≤ MAX16 :=
        le_trans (Nat.le_add_left _ _) hcol
      have hYM : gaps * (items.length - 1) ≤ MAX16 := le_trans e1 e2
      have hadd : (items.map Prod.snd).sum + gaps * (items.length - 1) ≤ MAX16 := by
        calc (items.map Prod.snd).sum + gaps * (items.length - 1)
            ≤ (items.map Prod.snd).sum + (items.length + 1) * gaps :=
              Nat.add_le_add_left e1 _
          _ ≤ 2 * H + ((items.map Prod.snd).sum + (items.length + 1) * gaps) :=
              Nat.le_add_left _ _
          _ = 2 * H + (items.map Prod.snd).sum + (items.length + 1) * gaps :=
              (Nat.add_assoc _ _ _).symm
          _ ≤ MAX16 := hcol
      rw [calculate_layout_col W H j a items gaps hemp,
        sum16_eq_some (items.map Prod.snd) hSM, Option.some_bind,
        cast16_eq_self hn', mul16_eq_some hYM, Option.some_bind,
        add16_eq_some hadd, Option.some_bind]
      obtain ⟨stepB, hstep, hbud⟩ := flex_step_bound j items.length
        (H - ((items.map Prod.snd).sum + gaps * (items.length - 1))) gaps H
        ((items.map Prod.snd).sum) (Nat.sub_le _ _) hn' hcol
      exact colLoop_total W j a items.length _ gaps stepB hstep items 0 _
        (fun p hp => (hcross p hp).1) hbud

theorem arrange_children_eq (x y width height pt pr pb pl : Nat)
    (layout : LayoutType) (children : List (String × ChildBox)) :
    Container.arrange_children x y width height (pt, pr, pb, pl)
        layout children =
      (add16 x pl).bind (fun content_x =>
        (add16 y pt).bind (fun content_y =>
          (add16 pl pr).bind (fun ph =>
            (add16 pt pb).bind (fun pv =>
              match layout with
              | .Vertical =>
                  (div16 (height - pv) (cast16 (children.length.max 1))).bind
                    (fun ch =>
                      Container.vLoop content_x (width - ph) ch content_y children)
              | .Horizontal =>
                  (div16 (width - ph) (cast16 (children.length.max 1))).bind
                    (fun cw =>
                      Container.hLoop content_y (height - pv) cw content_x children)
              | .Absolute => children.mapM (fun p =>
                  (add16 content_x (p.2.x.min (width - ph))).bind (fun nx =>
                    (add16 content_y (p.2.y.min (height - pv))).bind (fun ny =>
                      some (p.1, { p.2 with x := nx, y := ny }))))
              | .Grid =>
                  (div16 (height - pv) (cast16 (children.length.max 1))).bind
                    (fun ch =>
                      Container.vLoop content_x (width - ph) ch content_y children))))) :=
  rfl

theorem vLoop_total {C : Type} (cx cw ch : Nat) :
    ∀ (l : List (String × C)) (cy : Nat),
      cy + l.length * ch ≤ MAX16 →
      (Container.vLoop cx cw ch cy l).isSome := by
  intro l
  induction l with
  | nil => intro cy _; rfl
  | cons hd tl ih =>
    intro cy h
    obtain ⟨nm, c⟩ := hd
    rw [show Container.vLoop cx cw ch cy ((nm, c) :: tl) =
      (add16 cy ch).bind (fun ny => (Container.vLoop cx cw ch ny tl).bind
        (fun tail => some ((nm, ChildBox.mk cx cy cw ch) :: tail))) from rfl]
    simp only [List.length_cons] at h
    rw [Nat.succ_mul] at h
    have h1 : cy + ch ≤ MAX16 := by
      generalize tl.length * ch = q at h
      omega
    rw [add16_eq_some h1, Option.some_bind]
    have h2 := ih (cy + ch) (by generalize tl.length * ch = q at h ⊢; omega)
    obtain ⟨tail, htail⟩ := Option.isSome_iff_exists.mp h2
    rw [htail, Option.some_bind]
    rfl

theorem hLoop_total {C : Type} (cy chh cw : Nat) :
    ∀ (l : List (String × C)) (cx : Nat),
      cx + l.length * cw ≤ MAX16 →
      (Container.hLoop cy chh cw cx l).isSome := by
  intro l
  induction l with
  | nil => intro cx _; rfl
  | cons hd tl ih =>
    intro cx h
    obtain ⟨nm, c⟩ := hd
    rw [show Container.hLoop cy chh cw cx ((nm, c) :: tl) =
      (add16 cx cw).bind (fun nx => (Container.hLoop cy chh cw nx tl).bind
        (fun tail => some ((nm, ChildBox.mk cx cy cw chh) :: tail))) from rfl]
    simp only [List.length_cons] at h
    rw [Nat.succ_mul] at h
    have h1 : cx + cw ≤ MAX16 := by
      generalize tl.length * cw = q at h
      omega
    rw [add16_eq_some h1, Option.some_bind]
    have h2 := ih (cx + cw) (by generalize tl.length * cw = q at h ⊢; omega)
    obtain ⟨tail, htail⟩ := Option.isSome_iff_exists.mp h2
    rw [htail, Option.some_bind]
    rfl

theorem arrange_children_total (x y width height pt pr pb pl : Nat)
    (layout : LayoutType) (children : List (String × ChildBox))
    (hx : x + pl + width ≤ MAX16)
    (hy : y + pt + height ≤ MAX16)
    (hp1 : pl + pr ≤ MAX16)
    (hp2 : pt + pb ≤ MAX16)
    (hn : children.length ≤ MAX16) :
    (Container.arrange_children x y width height (pt, pr, pb, pl)
      layout children).isSome := by
  have hM : (1 : Nat) ≤ MAX16 := by norm_num [MAX16]
  rw [arrange_children_eq]
  rw [add16_eq_some (show x + pl ≤ MAX16 by omega), Option.some_bind,
    add16_eq_some (show y + pt ≤ MAX16 by omega), Option.some_bind,
    add16_eq_some hp1, Option.some_bind,
    add16_eq_some hp2, Option.some_bind]
  have hmax : children.length.max 1 ≤ MAX16 := by
    rw [Nat.max_le]
    exact ⟨hn, hM⟩
  have hm : cast16 (children.length.max 1) = children.length.max 1 :=
    cast16_eq_self hmax
  have hnz : children.length.max 1 ≠ 0 :=
    Nat.pos_iff_ne_zero.mp (Nat.le_max_right children.length 1)
  have hvb : children.length *
      ((height - (pt + pb)) / (children.length.max 1)) ≤ height := by
    have h1 : children.length ≤ children.length.max 1 := Nat.le_max_left _ _
    calc children.length * ((height - (pt + pb)) / (children.length.max 1))
        ≤ (children.length.max 1) *
            ((height - (pt + pb)) / (children.length.max 1)) :=
          Nat.mul_le_mul_right _ h1
      _ ≤ height - (pt + pb) := by
          rw [Nat.mul_comm]
          exact Nat.div_mul_le_self _ _
      _ ≤ height := Nat.sub_le _ _
  have hhb : children.length *
      ((width - (pl + pr)) / (children.length.max 1)) ≤ width := by
    have h1 : children.length ≤ children.length.max 1 := Nat.le_max_left _ _
    calc children.length * ((width - (pl + pr)) / (children.length.max 1))
        ≤ (children.length.max 1) *
            ((width - (pl + pr)) / (children.length.max 1)) :=
          Nat.mul_le_mul_right _ h1
      _ ≤ width - (pl + pr) := by
          rw [Nat.mul_comm]
          exact Nat.div_mul_le_self _ _
      _ ≤ width := Nat.sub_le _ _
  cases layout with
  | Vertical =>
    dsimp only
    rw [hm, div16_eq_some hnz, Option.some_bind]
    apply vLoop_total
    generalize children.length *
      ((height - (pt + pb)) / (children.length.max 1)) = t at hvb ⊢
    omega
  | Horizontal =>
    dsimp only
    rw [hm, div16_eq_some hnz, Option.some_bind]
    apply hLoop_total
    generalize children.length *
      ((width - (pl + pr)) / (children.length.max 1)) = t at hhb ⊢
    omega
  | Absolute =>
    dsimp only
    apply mapM_isSome
    intro p hp
    have e1 : p.2.x.min (width - (pl + pr)) ≤ width :=
      le_trans (Nat.min_le_right _ _) (Nat.sub_le _ _)
    have e2 : p.2.y.min (height - (pt + pb)) ≤ height :=
      le_trans (Nat.min_le_right _ _) (Nat.sub_le _ _)
    rw [add16_eq_some (show (x + pl) + p.2.x.min (width - (pl + pr)) ≤ MAX16
        by omega), Option.some_bind,
      add16_eq_some (show (y + pt) + p.2.y.min (height - (pt + pb)) ≤ MAX16
        by omega), Option.some_bind]
    rfl
  | Grid =>
    dsimp only
    rw [hm, div16_eq_some hnz, Option.some_bind]
    apply vLoop_total
    generalize children.length *
      ((height - (pt + pb)) / (children.length.max 1)) = t at hvb ⊢
    omega

theorem calculate_cells_unfold (g : grid.GridConfig) (W H : Nat) :
    g.calculate_cells W H =
      (sub16 g.columns 1).bind (fun cm1 =>
        (mul16 g.column_gap cm1).bind (fun tgw =>
          (sub16 g.rows 1).bind (fun rm1 =>
            (mul16 g.row_gap rm1).bind (fun tgh =>
              (sub16 W tgw).bind (fun wa =>
                (div16 wa g.columns).bind (fun cw =>
                  (sub16 H tgh).bind (fun ha =>
                    (div16 ha g.rows).bind (fun ch =>
                      ((List.range g.rows).mapM (fun row =>
                        (List.range g.columns).mapM (fun col =>
                          (add16 cw g.column_gap).bind (fun sx =>
                            (mul16 col sx).bind (fun x =>
                              (add16 ch g.row_gap).bind (fun sy =>
                                (mul16 row sy).bind (fun y =>
                                  some (x, y, cw, ch)))))))).bind (fun rl =>
                        some rl.flatten))))))))) := rfl

theorem calculate_cells_formula (g : grid.GridConfig) (W H : Nat)
    (h1 : 1 ≤ g.columns) (h2 : 1 ≤ g.rows)
    (h3 : g.column_gap * (g.columns - 1) ≤ W)
    (h4 : g.row_gap * (g.rows - 1) ≤ H)
    (h5 : W + g.column_gap ≤ MAX16) (h6 : H + g.row_gap ≤ MAX16) :
    g.calculate_cells W H =
      some (((List.range g.rows).map (fun row =>
        (List.range g.columns).map (fun col =>
          (col * ((W - g.column_gap * (g.columns - 1)) / g.columns +
             g.column_gap),
           row * ((H - g.row_gap * (g.rows - 1)) / g.rows + g.row_gap),
           (W - g.column_gap * (g.columns - 1)) / g.columns,
           (H - g.row_gap * (g.rows - 1)) / g.rows)))).flatten) := by
  have hWM : W ≤ MAX16 := by omega
  have hHM : H ≤ MAX16 := by omega
  rw [calculate_cells_unfold,
    sub16_eq_some h1, Option.some_bind,
    mul16_eq_some (le_trans h3 hWM), Option.some_bind,
    sub16_eq_some h2, Option.some_bind,
    mul16_eq_some (le_trans h4 hHM), Option.some_bind,
    sub16_eq_some h3, Option.some_bind,
    div16_eq_some (show g.columns ≠ 0 by omega), Option.some_bind,
    sub16_eq_some h4, Option.some_bind,
    div16_eq_some (show g.rows ≠ 0 by omega), Option.some_bind]
  set cw := (W - g.column_gap * (g.columns - 1)) / g.columns with hcw
  set ch := (H - g.row_gap * (g.rows - 1)) / g.rows with hch
  have hcwW : cw ≤ W := le_trans (Nat.div_le_self _ _) (Nat.sub_le _ _)
  have hchH : ch ≤ H := le_trans (Nat.div_le_self _ _) (Nat.sub_le _ _)
  have hsx : cw + g.column_gap ≤ MAX16 := by omega
  have hsy : ch + g.row_gap ≤ MAX16 := by omega
  have hcolsmul : g.columns * cw ≤ W - g.column_gap * (g.columns - 1) := by
    rw [hcw, Nat.mul_comm]
    exact Nat.div_mul_le_self _ _
  have hrowsmul : g.rows * ch ≤ H - g.row_gap * (g.rows - 1) := by
    rw [hch, Nat.mul_comm]
    exact Nat.div_mul_le_self _ _
  have hxmul : ∀ col ∈ List.range g.columns,
      col * (cw + g.column_gap) ≤ MAX16 := by
    intro col hcol
    rw [List.mem_range] at hcol
    calc col * (cw + g.column_gap)
        ≤ (g.columns - 1) * (cw + g.column_gap) :=
          Nat.mul_le_mul_right _ (by omega)
      _ = (g.columns - 1) * cw + (g.columns - 1) * g.column_gap :=
          Nat.left_distrib _ _ _
      _ ≤ (W - g.column_gap * (g.columns - 1)) +
            g.column_gap * (g.columns - 1) := by
          apply Nat.add_le_add
          · exact le_trans
              (Nat.mul_le_mul_right cw (by omega : g.columns - 1 ≤ g.columns))
              hcolsmul
          · rw [Nat.mul_comm]
      _ = W := Nat.sub_add_cancel h3
      _ ≤ MAX16 := hWM
  have hymul : ∀ row ∈ List.range g.rows,
      row * (ch + g.row_gap) ≤ MAX16 := by
    intro row hrow
    rw [List.mem_range] at hrow
    calc row * (ch + g.row_gap)
        ≤ (g.rows - 1) * (ch + g.row_gap) :=
          Nat.mul_le_mul_right _ (by omega)
      _ = (g.rows - 1) * ch + (g.rows - 1) * g.row_gap :=
          Nat.left_distrib _ _ _
      _ ≤ (H - g.row_gap * (g.rows - 1)) + g.row_gap * (g.rows - 1) := by
          apply Nat.add_le_add
          · exact le_trans
              (Nat.mul_le_mul_right ch (by omega : g.rows - 1 ≤ g.rows))
              hrowsmul
          · rw [Nat.mul_comm]
      _ = H := Nat.sub_add_cancel h4
      _ ≤ MAX16 := hHM
  have houter : ∀ row ∈ List.range g.rows,
      ((List.range g.columns).mapM (fun col =>
        (add16 cw g.column_gap).bind (fun sx =>
          (mul16 col sx).bind (fun x =>
            (add16 ch g.row_gap).bind (fun sy =>
              (mul16 row sy).bind (fun y => some (x, y, cw, ch))))))) =
      some ((List.range g.columns).map (fun col =>
        (col * (cw + g.column_gap), row * (ch + g.row_gap), cw, ch))) := by
    intro row hrow
    apply mapM_eq_some_map
    intro col hcol
    rw [add16_eq_some hsx, Option.some_bind,
      mul16_eq_some (hxmul col hcol), Option.some_bind,
      add16_eq_some hsy, Option.some_bind,
      mul16_eq_some (hymul row hrow), Option.some_bind]
  rw [mapM_eq_some_map _ _ (List.range g.rows) houter, Option.some_bind]

/-- Claim C2 (amended): the layout calculators are total once the inputs
that overflow or underflow the `u16` arithmetic are excluded:
`arrange_children` needs the container offset plus padding plus extent and
the padding sums to fit in `u16`; `flex::calculate_layout` needs every item
to fit the container on both axes and the item/gap sums to fit (align
`Center`/`End` subtract the item extent from the container extent
unchecked); `calculate_cells` needs at least one column and row, gaps
fitting in the dimension, and dimension-plus-gap within `u16`.  Under these
conditions every call returns defined (possibly zero-size) boxes. -/
theorem C2_amended :
    (∀ (x y width height pt pr pb pl : Nat) (layout : LayoutType)
        (children : List (String × ChildBox)),
      x + pl + width ≤ MAX16 → y + pt + height ≤ MAX16 →
      pl + pr ≤ MAX16 → pt + pb ≤ MAX16 → children.length ≤ MAX16 →
      (Container.arrange_children x y width height (pt, pr, pb, pl)
        layout children).isSome) ∧
    (∀ (W H : Nat) (d : flex.Direction) (j : flex.Justify) (a : flex.Align)
        (items : List (Nat × Nat)) (gaps : Nat),
      (∀ p ∈ items, p.1 ≤ W ∧ p.2 ≤ H) →
      items.length ≤ MAX16 →
      2 * W + (items.map Prod.fst).sum + (items.length + 1) * gaps ≤ MAX16 →
      2 * H + (items.map Prod.snd).sum + (items.length + 1) * gaps ≤ MAX16 →
      (flex.calculate_layout W H d j a items gaps).isSome) ∧
    (∀ (g : grid.GridConfig) (W H : Nat),
      1 ≤ g.columns → 1 ≤ g.rows →
      g.column_gap * (g.columns - 1) ≤ W →
      g.row_gap * (g.rows - 1) ≤ H →
      W + g.column_gap ≤ MAX16 → H + g.row_gap ≤ MAX16 →
      (g.calculate_cells W H).isSome) := by
  refine ⟨?_, ?_, ?_⟩
  · intro x y width height pt pr pb pl layout children hx hy hp1 hp2 hn
    exact arrange_children_total x y width height pt pr pb pl layout children
      hx hy hp1 hp2 hn
  · intro W H d j a items gaps hcross hn hrow hcol
    exact calculate_layout_total W H d j a items gaps hcross hn hrow hcol
  · intro g W H h1 h2 h3 h4 h5 h6
    rw [calculate_cells_formula g W H h1 h2 h3 h4 h5 h6]
    rfl

/-- Claim C2 (witness): totality at a vertical container with uniform
padding 1, the repository's own flex test configuration, and the 2×3 grid
example. -/
theorem C2_amended_witness :
    (Container.arrange_children 0 0 10 10 (1, 1, 1, 1) .Vertical
      [("a", ChildBox.mk 0 0 0 0)]).isSome ∧
    (flex.calculate_layout 50 10 .Row .SpaceBetween .Center
      [(10, 5), (15, 5), (10, 5)] 2).isSome ∧
    ((grid.GridConfig.mk 2 3 1 1).calculate_cells 10 7).isSome := by
  refine ⟨?_, ?_, ?_⟩
  · exact C2_amended.1 0 0 10 10 1 1 1 1 .Vertical [("a", ChildBox.mk 0 0 0 0)]
      (by decide) (by decide) (by decide) (by decide) (by decide)
  · exact C2_amended.2.1 50 10 .Row .SpaceBetween .Center
      [(10, 5), (15, 5), (10, 5)] 2 (by decide) (by decide) (by decide)
      (by decide)
  · exact C2_amended.2.2 (grid.GridConfig.mk 2 3 1 1) 10 7 (by decide)
      (by decide) (by decide) (by decide) (by decide) (by decide)

/-- Claim C9 (amended): `calculate_cells` returns `columns × rows` equal
cells of size `((dimension - gap×(count-1)) / count)` per axis, tiled
row-major at stride `(cell + gap)` (provided columns, rows ≥ 1 and the gap
totals fit the dimensions); in particular a 2×3 grid with gap 1 over a
(10,7) container yields six cells each of size (4,1) — not (4,2) as the
original claim stated, since `(7 - 1×2) / 3 = 1`. -/
theorem C9_amended :
    (∀ (g : grid.GridConfig) (W H : Nat),
      1 ≤ g.columns → 1 ≤ g.rows →
      g.column_gap * (g.columns - 1) ≤ W →
      g.row_gap * (g.rows - 1) ≤ H →
      W + g.column_gap ≤ MAX16 → H + g.row_gap ≤ MAX16 →
      g.calculate_cells W H =
        some (((List.range g.rows).map (fun row =>
          (List.range g.columns).map (fun col =>
            (col * ((W - g.column_gap * (g.columns - 1)) / g.columns +
               g.column_gap),
             row * ((H - g.row_gap * (g.rows - 1)) / g.rows + g.row_gap),
             (W - g.column_gap * (g.columns - 1)) / g.columns,
             (H - g.row_gap * (g.rows - 1)) / g.rows)))).flatten)) ∧
    (grid.GridConfig.mk 2 3 1 1).calculate_cells 10 7 =
      some [(0, 0, 4, 1), (5, 0, 4, 1), (0, 2, 4, 1), (5, 2, 4, 1),
            (0, 4, 4, 1), (5, 4, 4, 1)] := by
  refine ⟨?_, by decide⟩
  intro g W H h1 h2 h3 h4 h5 h6
  exact calculate_cells_formula g W H h1 h2 h3 h4 h5 h6

/-- Claim C9 (witness): the tiling formula applied to the 2×3 grid with
gap 1 over a (10,7) container. -/
theorem C9_amended_witness :
    (grid.GridConfig.mk 2 3 1 1).calculate_cells 10 7 =
      some (((List.range 3).map (fun row =>
        (List.range 2).map (fun col =>
          (col * ((10 - 1 * (2 - 1)) / 2 + 1),
           row * ((7 - 1 * (3 - 1)) / 3 + 1),
           (10 - 1 * (2 - 1)) / 2,
           (7 - 1 * (3 - 1)) / 3)))).flatten) :=
  C9_amended.1 (grid.GridConfig.mk 2 3 1 1) 10 7 (by decide) (by decide)
    (by decide) (by decide) (by decide) (by decide)

/-! ## Lemmas on the resize copy loop -/

theorem idx16_eq_some {y W x : Nat} (h : y * W + x ≤ MAX16) :
    idx16 y W x = some (y * W + x) := by
  rw [show idx16 y W x = (mul16 y W).bind (fun p => add16 p x) from rfl,
    mul16_eq_some (le_trans (Nat.le_add_right _ _) h), Option.some_bind,
    add16_eq_some h]

theorem flatIdx_inj (W y x y2 x2 : Nat) (hx : x < W) (hx2 : x2 < W)
    (h : y * W + x = y2 * W + x2) : y = y2 ∧ x = x2 := by
  have hW : 0 < W := lt_of_le_of_lt (Nat.zero_le x) hx
  have e1 : (y * W + x) / W = y := by
    rw [Nat.mul_comm y W, Nat.mul_add_div hW, Nat.div_eq_of_lt hx]
    omega
  have e2 : (y2 * W + x2) / W = y2 := by
    rw [Nat.mul_comm y2 W, Nat.mul_add_div hW, Nat.div_eq_of_lt hx2]
    omega
  have hy : y = y2 := by rw [← e1, ← e2, h]
  subst hy
  exact ⟨rfl, Nat.add_left_cancel h⟩

theorem flatIdx_lt (yv xv W H : Nat) (hy : yv < H) (hx : xv < W) :
    yv * W + xv < W * H :=
  calc yv * W + xv < yv * W + W := Nat.add_lt_add_left hx _
    _ = (yv + 1) * W := (Nat.succ_mul yv W).symm
    _ ≤ H * W := Nat.mul_le_mul_right W hy
    _ = W * H := Nat.mul_comm H W

theorem foldlM_append_opt {β α : Type} (f : β → α → Option β) (b : β)
    (l l2 : List α) :
    List.foldlM f b (l ++ l2) =
      (List.foldlM f b l).bind (fun init => List.foldlM f init l2) := by
  rw [List.foldlM_append]
  rfl

theorem foldlM_single_opt {β α : Type} (f : β → α → Option β) (b : β)
    (a : α) : List.foldlM f b [a] = f b a := by
  rw [List.foldlM_cons]
  show (f b a).bind (fun b2 => List.foldlM f b2 []) = f b a
  cases f b a with
  | none => rfl
  | some b2 => rfl

theorem get?_replicate_lt {α : Type} (a : α) {n i : Nat} (h : i < n) :
    (List.replicate n a).get? i = some a := by
  rw [List.get?_eq_getElem?, List.getElem?_replicate, if_pos h]

theorem copyCell_unfold (oldW newW : Nat) (src srcPrev : List BufferCell)
    (acc : List BufferCell × List BufferCell) (y x : Nat) :
    RenderBuffer.copyCell oldW newW src srcPrev acc y x =
      (idx16 y oldW x).bind (fun oi =>
        (idx16 y newW x).bind (fun ni =>
          (src.get? oi).bind (fun v =>
            (srcPrev.get? oi).bind (fun p =>
              (setChecked acc.1 ni v).bind (fun nc =>
                (setChecked acc.2 ni p).bind (fun np =>
                  some (nc, np))))))) := rfl

theorem copyCell_eq (oldW newW : Nat) (src srcPrev : List BufferCell)
    (acc : List BufferCell × List BufferCell) (y x : Nat) (v p : BufferCell)
    (hox : y * oldW + x ≤ MAX16) (hnx : y * newW + x ≤ MAX16)
    (hv : src.get? (y * oldW + x) = some v)
    (hp : srcPrev.get? (y * oldW + x) = some p)
    (hd1 : y * newW + x < acc.1.length) (hd2 : y * newW + x < acc.2.length) :
    RenderBuffer.copyCell oldW newW src srcPrev acc y x =
      some (acc.1.set (y * newW + x) v, acc.2.set (y * newW + x) p) := by
  rw [copyCell_unfold, idx16_eq_some hox, Option.some_bind,
    idx16_eq_some hnx, Option.some_bind, hv, Option.some_bind,
    hp, Option.some_bind]
  simp only [setChecked, if_pos hd1, Option.some_bind, if_pos hd2,
    Option.some_bind]

theorem copyRow_eq (oldW newW : Nat) (src srcPrev : List BufferCell)
    (y : Nat) :
    ∀ (minW : Nat),
      (∀ x, x < minW → y * oldW + x ≤ MAX16 ∧ y * newW + x ≤ MAX16) →
      (∀ x, x < minW →
        y * oldW + x < src.length ∧ y * oldW + x < srcPrev.length) →
      ∀ (acc : List BufferCell × List BufferCell),
      (∀ x, x < minW →
        y * newW + x < acc.1.length ∧ y * newW + x < acc.2.length) →
      ∃ r, (List.range minW).foldlM
          (fun acc2 x => RenderBuffer.copyCell oldW newW src srcPrev acc2 y x)
          acc = some r ∧
        r.1.length = acc.1.length ∧ r.2.length = acc.2.length ∧
        (∀ x, x < minW →
          r.1.get? (y * newW + x) = src.get? (y * oldW + x) ∧
          r.2.get? (y * newW + x) = srcPrev.get? (y * oldW + x)) ∧
        (∀ j, (∀ x, x < minW → j ≠ y * newW + x) →
          r.1.get? j = acc.1.get? j ∧ r.2.get? j = acc.2.get? j) := by
  intro minW
  induction minW with
  | zero =>
    intro _ _ acc _
    refine ⟨acc, rfl, rfl, rfl, ?_, ?_⟩
    · intro x hx
      exact absurd hx (Nat.not_lt_zero x)
    · intro j _
      exact ⟨rfl, rfl⟩
  | succ m ih =>
    intro hfit hsrc acc hacc
    obtain ⟨r, hr, hl1, hl2, hcopy, hmiss⟩ := ih
      (fun x hx => hfit x (by omega)) (fun x hx => hsrc x (by omega)) acc
      (fun x hx => hacc x (by omega))
    rw [List.range_succ, foldlM_append_opt, hr, Option.some_bind,
      foldlM_single_opt]
    obtain ⟨hfm1, hfm2⟩ := hfit m (by omega)
    obtain ⟨hs1, hs2⟩ := hsrc m (by omega)
    obtain ⟨hd1, hd2⟩ := hacc m (by omega)
    have hv := List.get?_eq_get hs1
    have hpv := List.get?_eq_get hs2
    rw [copyCell_eq oldW newW src srcPrev r y m _ _ hfm1 hfm2 hv hpv
      (by rw [hl1]; exact hd1) (by rw [hl2]; exact hd2)]
    refine ⟨_, rfl, ?_, ?_, ?_, ?_⟩
    · simp [List.length_set, hl1]
    · simp [List.length_set, hl2]
    · intro x hx
      by_cases hxm : x = m
      · subst hxm
        constructor
        · rw [List.get?_set_eq_of_lt _ (by rw [hl1]; exact hd1), hv]
        · rw [List.get?_set_eq_of_lt _ (by rw [hl2]; exact hd2), hpv]
      · have hxm2 : x < m := by omega
        have hne : y * newW + m ≠ y * newW + x := by
          intro heq
          exact hxm (Nat.add_left_cancel heq).symm
        constructor
        · rw [List.get?_set_ne _ _ hne]
          exact (hcopy x hxm2).1
        · rw [List.get?_set_ne _ _ hne]
          exact (hcopy x hxm2).2
    · intro j hj
      have hne : y * newW + m ≠ j := fun h => (hj m (by omega)) h.symm
      constructor
      · rw [List.get?_set_ne _ _ hne]
        exact (hmiss j (fun x hx => hj x (by omega))).1
      · rw [List.get?_set_ne _ _ hne]
        exact (hmiss j (fun x hx => hj x (by omega))).2

theorem copyLoop_eq (oldW newW : Nat) (src srcPrev : List BufferCell)
    (minW : Nat) (hWle : minW ≤ newW) :
    ∀ (minH : Nat),
      (∀ y x, y < minH → x < minW →
        y * oldW + x ≤ MAX16 ∧ y * newW + x ≤ MAX16) →
      (∀ y x, y < minH → x < minW →
        y * oldW + x < src.length ∧ y * oldW + x < srcPrev.length) →
      ∀ (acc : List BufferCell × List BufferCell),
      (∀ y x, y < minH → x < minW →
        y * newW + x < acc.1.length ∧ y * newW + x < acc.2.length) →
      ∃ r, RenderBuffer.copyLoop oldW newW src srcPrev minW minH acc = some r ∧
        r.1.length = acc.1.length ∧ r.2.length = acc.2.length ∧
        (∀ y x, y < minH → x < minW →
          r.1.get? (y * newW + x) = src.get? (y * oldW + x) ∧
          r.2.get? (y * newW + x) = srcPrev.get? (y * oldW + x)) ∧
        (∀ j, (∀ y x, y < minH → x < minW → j ≠ y * newW + x) →
          r.1.get? j = acc.1.get? j ∧ r.2.get? j = acc.2.get? j) := by
  intro minH
  induction minH with
  | zero =>
    intro _ _ acc _
    refine ⟨acc, rfl, rfl, rfl, ?_, ?_⟩
    · intro y x hy _
      exact absurd hy (Nat.not_lt_zero y)
    · intro j _
      exact ⟨rfl, rfl⟩
  | succ m ih =>
    intro hfit hsrc acc hacc
    obtain ⟨r, hr, hl1, hl2, hcopy, hmiss⟩ := ih
      (fun y x hy hx => hfit y x (by omega) hx)
      (fun y x hy hx => hsrc y x (by omega) hx) acc
      (fun y x hy hx => hacc y x (by omega) hx)
    unfold RenderBuffer.copyLoop at hr ⊢
    rw [List.range_succ, foldlM_append_opt, hr, Option.some_bind,
      foldlM_single_opt]
    obtain ⟨r2, hr2, hk1, hk2, hcopy2, hmiss2⟩ :=
      copyRow_eq oldW newW src srcPrev m minW
        (fun x hx => hfit m x (by omega) hx)
        (fun x hx => hsrc m x (by omega) hx) r
        (fun x hx => by
          obtain ⟨h1, h2⟩ := hacc m x (by omega) hx
          exact ⟨by rw [hl1]; exact h1, by rw [hl2]; exact h2⟩)
    rw [hr2]
    refine ⟨r2, rfl, by rw [hk1, hl1], by rw [hk2, hl2], ?_, ?_⟩
    · intro y x hy hx
      by_cases hym : y = m
      · subst hym
        exact hcopy2 x hx
      · have hym2 : y < m := by omega
        have hrow : ∀ x2, x2 < minW → y * newW + x ≠ m * newW + x2 := by
          intro x2 hx2 heq
          exact hym (flatIdx_inj newW y x m x2 (by omega) (by omega) heq).1
        obtain ⟨e1, e2⟩ := hmiss2 (y * newW + x) hrow
        rw [e1, e2]
        exact hcopy y x hym2 hx
    · intro j hj
      obtain ⟨e1, e2⟩ := hmiss2 j (fun x hx => hj m x (by omega) hx)
      rw [e1, e2]
      exact hmiss j (fun y x hy hx => hj y x (by omega) hx)

/-- Claim C5 (amended): for well-formed buffers whose flat `u16` index
arithmetic fits, `resize(w,h)` preserves **both** grids positionally on the
overlapping region (the per-axis minimum of old and new extents) and fills
everything outside it with default cells.  In particular a character at
(2,2) of a 5×5 buffer survives a resize to 10×10 **and** a resize down to
3×3 (0-based (2,2) is inside the 3×3 overlap); it is dropped only below
3×3. -/
theorem C5_amended (b : RenderBuffer) (w h : Nat)
    (hc : b.cells.length = b.width * b.height)
    (hp : b.prev_cells.length = b.width * b.height)
    (hfit : ∀ y x, y < b.height.min h → x < b.width.min w →
      y * b.width + x ≤ MAX16 ∧ y * w + x ≤ MAX16) :
    ∃ b2, b.resize w h = some b2 ∧ b2.width = w ∧ b2.height = h ∧
      b2.cells.length = w * h ∧ b2.prev_cells.length = w * h ∧
      (∀ y x, y < b.height.min h → x < b.width.min w →
        b2.cells.get? (y * w + x) = b.cells.get? (y * b.width + x) ∧
        b2.prev_cells.get? (y * w + x) =
          b.prev_cells.get? (y * b.width + x)) ∧
      (∀ y x, y < h → x < w →
        ¬(y < b.height.min h ∧ x < b.width.min w) →
        b2.cells.get? (y * w + x) = some BufferCell.default ∧
        b2.prev_cells.get? (y * w + x) = some BufferCell.default) := by
  by_cases hsame : w = b.width ∧ h = b.height
  · obtain ⟨hw, hh⟩ := hsame
    subst hw
    subst hh
    refine ⟨b, ?_, rfl, rfl, hc, hp, ?_, ?_⟩
    · unfold RenderBuffer.resize
      rw [if_pos ⟨rfl, rfl⟩]
    · intro y x _ _
      exact ⟨rfl, rfl⟩
    · intro y x hy hx hnot
      exact absurd ⟨by simpa [Nat.min_self] using hy,
        by simpa [Nat.min_self] using hx⟩ hnot
  · obtain ⟨r, hr, hl1, hl2, hcopy, hmiss⟩ :=
      copyLoop_eq b.width w b.cells b.prev_cells (b.width.min w)
        (Nat.min_le_right _ _) (b.height.min h) hfit
        (fun y x hy hx => by
          constructor
          · rw [hc]
            exact flatIdx_lt y x b.width b.height
              (lt_of_lt_of_le hy (Nat.min_le_left _ _))
              (lt_of_lt_of_le hx (Nat.min_le_left _ _))
          · rw [hp]
            exact flatIdx_lt y x b.width b.height
              (lt_of_lt_of_le hy (Nat.min_le_left _ _))
              (lt_of_lt_of_le hx (Nat.min_le_left _ _)))
        (List.replicate (w * h) BufferCell.default,
         List.replicate (w * h) BufferCell.default)
        (fun y x hy hx => by
          constructor <;>
          · show _ < (List.replicate (w * h) BufferCell.default).length
            rw [List.length_replicate]
            exact flatIdx_lt y x w h
              (lt_of_lt_of_le hy (Nat.min_le_right _ _))
              (lt_of_lt_of_le hx (Nat.min_le_right _ _)))
    refine ⟨⟨w, h, r.1, r.2⟩, ?_, rfl, rfl, ?_, ?_, ?_, ?_⟩
    · unfold RenderBuffer.resize
      rw [if_neg hsame]
      show (RenderBuffer.copyLoop b.width w b.cells b.prev_cells
        (b.width.min w) (b.height.min h)
        (List.replicate (w * h) BufferCell.default,
         List.replicate (w * h) BufferCell.default)).bind
        (fun r2 => some (RenderBuffer.mk w h r2.1 r2.2)) =
        some (RenderBuffer.mk w h r.1 r.2)
      rw [hr, Option.some_bind]
    · show r.1.length = w * h
      rw [hl1, List.length_replicate]
    · show r.2.length = w * h
      rw [hl2, List.length_replicate]
    · intro y x hy hx
      exact hcopy y x hy hx
    · intro y x hy hx hnot
      have hjm : ∀ y2 x2, y2 < b.height.min h → x2 < b.width.min w →
          y * w + x ≠ y2 * w + x2 := by
        intro y2 x2 hy2 hx2 heq
        obtain ⟨hyy, hxx⟩ := flatIdx_inj w y x y2 x2 hx
          (lt_of_lt_of_le hx2 (Nat.min_le_right _ _)) heq
        subst hyy
        subst hxx
        exact hnot ⟨hy2, hx2⟩
      obtain ⟨e1, e2⟩ := hmiss (y * w + x) hjm
      constructor
      · show r.1.get? (y * w + x) = _
        rw [e1]
        exact get?_replicate_lt _ (flatIdx_lt y x w h hy hx)
      · show r.2.get? (y * w + x) = _
        rw [e2]
        exact get?_replicate_lt _ (flatIdx_lt y x w h hy hx)

/-- Claim C5 (witness): the preservation theorem applied to the 5×5 buffer
holding `'X'` at (2,2) (flat index 12), resized down to 3×3: the cell at
(2,2) (flat index 8 in the new grid) is the old cell at flat index 12. -/
theorem C5_amended_witness :
    ∃ b2, (RenderBuffer.mk 5 5
        ((List.replicate 25 BufferCell.default).set 12
          ⟨'X', Style.default, true⟩)
        (List.replicate 25 BufferCell.default)).resize 3 3 = some b2 ∧
      b2.cells.get? (2 * 3 + 2) =
        ((List.replicate 25 BufferCell.default).set 12
          ⟨'X', Style.default, true⟩).get? (2 * 5 + 2) ∧
      ((List.replicate 25 BufferCell.default).set 12
          ⟨'X', Style.default, true⟩ : List BufferCell).get? (2 * 5 + 2) =
        some ⟨'X', Style.default, true⟩ := by
  obtain ⟨b2, h1, _, _, _, _, hcopy, _⟩ := C5_amended
    (RenderBuffer.mk 5 5
      ((List.replicate 25 BufferCell.default).set 12
        ⟨'X', Style.default, true⟩)
      (List.replicate 25 BufferCell.default)) 3 3 (by decide) (by decide)
    (by
      intro y x hy hx
      dsimp only at hy hx ⊢
      norm_num [Nat.min_def] at hy hx
      simp only [MAX16]
      omega)
  exact ⟨b2, h1, (hcopy 2 2 (by decide) (by decide)).1, by decide⟩
